import Mathlib

set_option maxRecDepth 8000

/-!
Shallow embedding of the accessibility event queue
(`accessible/base/EventQueue.cpp`): the event model, push with
duplicate suppression, the coalescing engine, the selection-merge
algorithm, the name/description dependency walk, and the drain loop.

Tree nodes, widgets, items, selections and state bits are identified by
natural numbers; the external tree collaborators (liveness, parenthood,
name rules, relations) are explicit environment records of functions.
-/

/-- Event kinds referenced by the queue logic (`nsIAccessibleEvent`
constants); kinds the queue treats generically are `other n`. -/
inductive EventType where
  | focus
  | selectionAdd
  | selectionRemove
  | selection
  | selectionWithin
  | stateChange
  | textSelectionChanged
  | nameChange
  | descriptionChange
  | textInserted
  | textRemoved
  | reorder
  | innerReorder
  | other (n : Nat)
  deriving DecidableEq, Repr

/-- Coalescing rules (`AccEvent::EEventRule`). -/
inductive EventRule where
  | eRemoveDupes
  | eCoalesceReorder
  | eCoalesceOfSameType
  | eCoalesceSelectionChange
  | eCoalesceStateChange
  | eCoalesceTextSelChange
  | eAllowDupes
  | eDoNotEmit
  deriving DecidableEq, Repr

/-- Selection change discriminator (`AccSelChangeEvent::SelChangeType`). -/
inductive SelChangeType where
  | eSelectionAdd
  | eSelectionRemove
  deriving DecidableEq, Repr

/-- An event record: the `AccEvent` base fields plus the payload fields of
the subclasses the queue inspects (`AccSelChangeEvent`,
`AccStateChangeEvent`, `AccTextSelChangeEvent`), flattened.
`mPackedEvent` is an index into the owning event sequence, mirroring the
in-queue pointer of the source. -/
structure AccEvent where
  mEventType : EventType
  mEventRule : EventRule
  mAccessible : Nat
  mIsFromUserInput : Bool
  mWidget : Nat
  mItem : Nat
  mSelChangeType : SelChangeType
  mPreceedingCount : Nat
  mPackedEvent : Option Nat
  mState : Nat
  mIsEnabled : Bool
  mSel : Nat
  deriving DecidableEq, Repr

/-- Placeholder event used as the default for out-of-range reads (the
source never performs such reads; see the bounds results). -/
def dummyEvent : AccEvent :=
  ⟨EventType.other 0, EventRule.eAllowDupes, 0, false, 0, 0,
   SelChangeType.eSelectionAdd, 0, none, 0, false, 0⟩

instance : Inhabited AccEvent := ⟨dummyEvent⟩

/-- Read the event at index `i` of the sequence. -/
def getEv (l : List AccEvent) (i : Nat) : AccEvent :=
  l.getD i dummyEvent

/-- Mutate the event at index `i` of the sequence in place. -/
def modifyEv (l : List AccEvent) (i : Nat) (f : AccEvent → AccEvent) :
    List AccEvent :=
  l.set i (f (getEv l i))

/-- The queue state: the ordered event sequence `mEvents` plus the single
pending focus slot `mFocusEvent`. -/
structure EventQueue where
  mEvents : List AccEvent
  mFocusEvent : Option AccEvent
  deriving DecidableEq, Repr

/-- The empty queue (a fresh generation). -/
def emptyQueue : EventQueue := ⟨[], none⟩

/-- `kSelChangeCountToPack`: number of selection add/remove events in the
queue before they are packed into a single selection-within event. -/
def kSelChangeCountToPack : Nat := 5

/-- Backward suppression scan of the selection pack step
(`CoalesceSelChangeEvents`, the `jdx` loop): starting below the matched
entry, retag do-not-emit every entry sharing the tail's rule and widget.
The fuel argument is the next index to examine plus one, so `packScan r w
i l` visits indices `i-1, i-2, …, 0` — the translation of the unsigned
countdown `for (uint32_t jdx = aThisIndex - 1; jdx < aThisIndex; jdx--)`. -/
def packScan (rule : EventRule) (widget : Nat) :
    Nat → List AccEvent → List AccEvent
  | 0, l => l
  | j + 1, l =>
      let prevEvent := getEv l j
      let l' :=
        if prevEvent.mEventRule = rule ∧ prevEvent.mWidget = widget then
          l.set j { prevEvent with mEventRule := EventRule.eDoNotEmit }
        else l
      packScan rule widget j l'

/-- `EventQueue::CoalesceSelChangeEvents`: merge the tail selection
change event (at `tailIdx`) with the matched earlier one (at `thisIdx`).
Mirrors the source's four-branch structure: pack at the threshold, merge
an opposite add/remove pair, unpack a previously merged pair, downgrade a
merged tail. -/
def CoalesceSelChangeEvents (l : List AccEvent) (tailIdx thisIdx : Nat) :
    List AccEvent :=
  let aThis := getEv l thisIdx
  let l1 := modifyEv l tailIdx
    (fun e => { e with mPreceedingCount := aThis.mPreceedingCount + 1 })
  let aTail := getEv l1 tailIdx
  if kSelChangeCountToPack ≤ aTail.mPreceedingCount then
    -- Pack all preceding events into a single selection-within event.
    let l2 := modifyEv l1 tailIdx (fun e =>
      { e with mEventType := EventType.selectionWithin,
               mAccessible := e.mWidget })
    let l3 := modifyEv l2 thisIdx
      (fun e => { e with mEventRule := EventRule.eDoNotEmit })
    if aThis.mEventType ≠ EventType.selectionWithin then
      packScan (getEv l3 tailIdx).mEventRule (getEv l3 tailIdx).mWidget
        thisIdx l3
    else l3
  else if aTail.mPreceedingCount = 1 ∧ aTail.mItem ≠ aThis.mItem ∧
      aTail.mSelChangeType = SelChangeType.eSelectionAdd ∧
      aThis.mSelChangeType = SelChangeType.eSelectionRemove then
    -- Pack a sequential remove/add pair into a single selection event.
    let l2 := modifyEv l1 thisIdx
      (fun e => { e with mEventRule := EventRule.eDoNotEmit })
    modifyEv l2 tailIdx (fun e =>
      { e with mEventType := EventType.selection,
               mPackedEvent := some thisIdx })
  else if aTail.mPreceedingCount = 1 ∧ aTail.mItem ≠ aThis.mItem ∧
      aThis.mSelChangeType = SelChangeType.eSelectionAdd ∧
      aTail.mSelChangeType = SelChangeType.eSelectionRemove then
    let l2 := modifyEv l1 tailIdx
      (fun e => { e with mEventRule := EventRule.eDoNotEmit })
    modifyEv l2 thisIdx (fun e =>
      { e with mEventType := EventType.selection,
               mPackedEvent := some tailIdx })
  else if aThis.mEventType = EventType.selection then
    -- Unpack the packed selection change event.
    let l2 :=
      match aThis.mPackedEvent with
      | some p =>
          let lp := modifyEv l1 p (fun e =>
            { e with
                mEventType :=
                  if e.mSelChangeType = SelChangeType.eSelectionAdd then
                    EventType.selectionAdd
                  else EventType.selectionRemove,
                mEventRule := EventRule.eCoalesceSelectionChange })
          modifyEv lp thisIdx (fun e => { e with mPackedEvent := none })
      | none => l1
    modifyEv l2 thisIdx (fun e =>
      { e with mEventType :=
          if e.mSelChangeType = SelChangeType.eSelectionAdd then
            EventType.selectionAdd
          else EventType.selectionRemove })
  else if aTail.mEventType = EventType.selection then
    -- Convert into selection add: single-selection control with more
    -- selection events queued.
    modifyEv l1 tailIdx
      (fun e => { e with mEventType := EventType.selectionAdd })
  else l1

/-- Backward scan of the `eCoalesceOfSameType` rule: retag do-not-emit
the nearest earlier entry with the tail's kind and rule, then stop. -/
def coalesceSameTypeScan (tailEv : AccEvent) :
    Nat → List AccEvent → List AccEvent
  | 0, l => l
  | i + 1, l =>
      let accEvent := getEv l i
      if accEvent.mEventType = tailEv.mEventType ∧
          accEvent.mEventRule = tailEv.mEventRule then
        l.set i { accEvent with mEventRule := EventRule.eDoNotEmit }
      else coalesceSameTypeScan tailEv i l

/-- Backward scan of the `eCoalesceSelectionChange` rule: look for an
earlier entry sharing the rule; on the first one that also shares the
owning widget, run the selection-merge algorithm and stop. An entry that
shares the rule but not the widget is skipped and the scan continues. -/
def coalesceSelScan (tailIdx : Nat) :
    Nat → List AccEvent → List AccEvent
  | 0, l => l
  | i + 1, l =>
      let tailEv := getEv l tailIdx
      let thisEvent := getEv l i
      if thisEvent.mEventRule = tailEv.mEventRule ∧
          tailEv.mWidget = thisEvent.mWidget then
        CoalesceSelChangeEvents l tailIdx i
      else coalesceSelScan tailIdx i l

/-- Backward scan of the `eCoalesceStateChange` rule: over every earlier
non-suppressed entry of the tail's kind and target, retag the earlier
entry on a state-bit match, and also retag the tail when the enabled
flags disagree. No early exit. -/
def coalesceStateScan (tailIdx : Nat) :
    Nat → List AccEvent → List AccEvent
  | 0, l => l
  | i + 1, l =>
      let tailEv := getEv l tailIdx
      let thisEvent := getEv l i
      let l' :=
        if thisEvent.mEventRule ≠ EventRule.eDoNotEmit ∧
            thisEvent.mEventType = tailEv.mEventType ∧
            thisEvent.mAccessible = tailEv.mAccessible then
          if thisEvent.mState = tailEv.mState then
            let l1 := modifyEv l i
              (fun e => { e with mEventRule := EventRule.eDoNotEmit })
            if thisEvent.mIsEnabled ≠ tailEv.mIsEnabled then
              modifyEv l1 tailIdx
                (fun e => { e with mEventRule := EventRule.eDoNotEmit })
            else l1
          else l
        else l
      coalesceStateScan tailIdx i l'

/-- Backward scan of the `eCoalesceTextSelChange` rule: retag every
earlier non-suppressed entry of the tail's kind that shares either the
selection descriptor or the target. No early exit. -/
def coalesceTextSelScan (tailIdx : Nat) :
    Nat → List AccEvent → List AccEvent
  | 0, l => l
  | i + 1, l =>
      let tailEv := getEv l tailIdx
      let thisEvent := getEv l i
      let l' :=
        if thisEvent.mEventRule ≠ EventRule.eDoNotEmit ∧
            thisEvent.mEventType = tailEv.mEventType ∧
            (thisEvent.mSel = tailEv.mSel ∨
             thisEvent.mAccessible = tailEv.mAccessible) then
          modifyEv l i
            (fun e => { e with mEventRule := EventRule.eDoNotEmit })
        else l
      coalesceTextSelScan tailIdx i l'

/-- `EventQueue::CoalesceEvents`: dispatch on the just-inserted tail
entry's rule. All backward scans start at the entry just below the tail;
an empty list (which the source excludes by assertion) is returned
unchanged. -/
def CoalesceEvents (l : List AccEvent) : List AccEvent :=
  match l.length with
  | 0 => l
  | n + 1 =>
      let tail := n
      let tailEvent := getEv l tail
      match tailEvent.mEventRule with
      | EventRule.eCoalesceReorder => l
      | EventRule.eCoalesceOfSameType => coalesceSameTypeScan tailEvent tail l
      | EventRule.eCoalesceSelectionChange => coalesceSelScan tail tail l
      | EventRule.eCoalesceStateChange => coalesceStateScan tail tail l
      | EventRule.eCoalesceTextSelChange => coalesceTextSelScan tail tail l
      | _ => l

/-- The duplicate scan of `EventQueue::PushEvent`: walk the whole
sequence from the newest entry down, returning true iff some entry
matches the new event on kind, rule and target. `dupScan e n l` examines
indices `n-1, …, 0`, translating the unsigned countdown
`for (uint32_t index = last; index <= last; --index)`. -/
def dupScan (e : AccEvent) : Nat → List AccEvent → Bool
  | 0, _ => false
  | i + 1, l =>
      let checkEvent := getEv l i
      if checkEvent.mEventType = e.mEventType ∧
          checkEvent.mEventRule = e.mEventRule ∧
          checkEvent.mAccessible = e.mAccessible then true
      else dupScan e i l

/-- Result of one push: the new queue state, the event when it was
suppressed without being appended (the source retags the caller's event
do-not-emit and drops it), and the returned boolean. -/
structure PushResult where
  queue : EventQueue
  rejected : Option AccEvent
  accepted : Bool
  deriving Repr

/-- `EventQueue::PushEvent`, at the level of queue state: a focus event
only overwrites the focus slot; a remove-duplicates event matching an
existing entry is retagged do-not-emit and dropped without appending;
otherwise the event is appended and the coalescing engine runs once on
the new tail. (The subsequent name/description dependency propagation of
the source, which re-enters this function with derived events, is
modelled separately by `nameWalk`; each derived push is an ordinary push
of this function.) -/
def PushEvent (q : EventQueue) (e : AccEvent) : PushResult :=
  if e.mEventType = EventType.focus then
    ⟨⟨q.mEvents, some e⟩, none, true⟩
  else if e.mEventRule = EventRule.eRemoveDupes ∧ q.mEvents ≠ [] ∧
      dupScan e q.mEvents.length q.mEvents = true then
    ⟨q, some { e with mEventRule := EventRule.eDoNotEmit }, true⟩
  else
    ⟨⟨CoalesceEvents (q.mEvents ++ [e]), q.mFocusEvent⟩, none, true⟩

/-- Push a list of events in order, starting from queue `q`. -/
def pushAll (es : List AccEvent) (q : EventQueue) : EventQueue :=
  es.foldl (fun acc e => (PushEvent acc e).queue) q

/-- One step of the counting fold: push the event, and tally whether it
was dropped by the remove-duplicates check or went to the focus slot. -/
def pushStep (acc : EventQueue × Nat × Nat) (e : AccEvent) :
    EventQueue × Nat × Nat :=
  let r := PushEvent acc.1 e
  (r.queue,
   acc.2.1 + (if r.rejected.isSome then 1 else 0),
   acc.2.2 + (if e.mEventType = EventType.focus then 1 else 0))

/-- Push a list of events from the empty queue, also counting the pushes
dropped by the remove-duplicates check and the focus pushes. Returns
(queue, dropped, focusPushes). -/
def pushStats (es : List AccEvent) : EventQueue × Nat × Nat :=
  es.foldl pushStep (emptyQueue, 0, 0)

/-- Environment for the drain: the liveness and document queries and the
two global flags the dispatcher consults. -/
structure DrainEnv where
  isDefunct : Nat → Bool
  isDoc : Nat → Bool
  ipcActive : Bool
  docValid : Bool

/-- One delivered notification, in delivery order: a focus delivery to
the focus collaborator, a text-selection delivery to the selection
collaborator, a boolean selected-state notification
(`nsEventShell::FireEvent(target, states::SELECTED, enabled, fromUser)`),
a generic event delivery (`nsEventShell::FireEvent(event)`), a
flush of out-of-band mutation records, or the final selection-delta
report to the transport collaborator. -/
inductive Notification where
  | focusDelivered (target : Nat)
  | textSelDelivered (target : Nat)
  | stateFired (target : Nat) (enabled : Bool) (fromUser : Bool)
  | eventFired (e : AccEvent)
  | mutationsFlushed
  | selectedChanged (selected unselected : List Nat)
  deriving DecidableEq, Repr

/-- Result of the drain loop: notifications in order, the accumulated
selected/unselected item ids, and whether the loop aborted because the
document went away. -/
structure LoopRes where
  notifs : List Notification
  sel : List Nat
  unsel : List Nat
  aborted : Bool
  deriving DecidableEq, Repr

/-- The select-change collection step of the drain loop: when the remote
transport is active and the entry is a dropped selection add/remove/
selection or a selection-within, record its still-valid item as
selected or unselected (a document item reports id 0). -/
def collectSelChange (env : DrainEnv) (event : AccEvent)
    (sel unsel : List Nat) : List Nat × List Nat :=
  if env.ipcActive ∧
      ((event.mEventRule = EventRule.eDoNotEmit ∧
        (event.mEventType = EventType.selectionAdd ∨
         event.mEventType = EventType.selectionRemove ∨
         event.mEventType = EventType.selection)) ∨
       event.mEventType = EventType.selectionWithin) then
    if env.isDefunct event.mItem then (sel, unsel)
    else
      let itemID := if env.isDoc event.mItem then 0 else event.mItem
      if event.mSelChangeType = SelChangeType.eSelectionAdd then
        (sel ++ [itemID], unsel)
      else (sel, unsel ++ [itemID])
  else (sel, unsel)

/-- The selected-state notifications fired in support of a selection
add/remove/selection entry before the entry itself: the boolean selected
state of the primary target, then — for a merged selection event — of its
packed partner, resolved against the detached sequence `all`. -/
def selStateNotifs (all : List AccEvent) (event : AccEvent) :
    List Notification :=
  if event.mEventType = EventType.selectionAdd then
    [Notification.stateFired event.mAccessible true event.mIsFromUserInput]
  else if event.mEventType = EventType.selectionRemove then
    [Notification.stateFired event.mAccessible false event.mIsFromUserInput]
  else if event.mEventType = EventType.selection then
    Notification.stateFired event.mAccessible
        (decide (event.mSelChangeType = SelChangeType.eSelectionAdd))
        event.mIsFromUserInput ::
      (match event.mPackedEvent with
       | some p =>
           let packed := getEv all p
           [Notification.stateFired packed.mAccessible
             (decide (packed.mSelChangeType = SelChangeType.eSelectionAdd))
             packed.mIsFromUserInput]
       | none => [])
  else []

/-- After firing a reorder or text-inserted/removed entry, the transport
collaborator flushes its out-of-band mutation records. -/
def mutationFlushNotifs (env : DrainEnv) (event : AccEvent) :
    List Notification :=
  if (event.mEventType = EventType.reorder ∨
      event.mEventType = EventType.textInserted ∨
      event.mEventType = EventType.textRemoved) ∧ env.ipcActive then
    [Notification.mutationsFlushed]
  else []

/-- The main loop of `EventQueue::ProcessEventQueue` over the detached
event list. `all` is the whole detached list (packed-partner indices
resolve against it); the loop consumes the `rest` suffix, threading the
selected/unselected id accumulators, skipping defunct and do-not-emit
entries, redirecting text-selection entries, and aborting when the
document goes away after an entry fires. -/
def drainLoop (env : DrainEnv) (all : List AccEvent) :
    List AccEvent → List Nat → List Nat → LoopRes
  | [], sel, unsel => ⟨[], sel, unsel, false⟩
  | event :: rest, sel, unsel =>
      if env.isDefunct event.mAccessible then
        drainLoop env all rest sel unsel
      else
        let sp := collectSelChange env event sel unsel
        if event.mEventRule = EventRule.eDoNotEmit then
          drainLoop env all rest sp.1 sp.2
        else if event.mEventType = EventType.textSelectionChanged then
          let r := drainLoop env all rest sp.1 sp.2
          ⟨Notification.textSelDelivered event.mAccessible :: r.notifs,
           r.sel, r.unsel, r.aborted⟩
        else
          let fired := selStateNotifs all event ++ [Notification.eventFired event]
          if env.docValid = false then ⟨fired, sp.1, sp.2, true⟩
          else
            let r := drainLoop env all rest sp.1 sp.2
            ⟨fired ++ mutationFlushNotifs env event ++ r.notifs,
             r.sel, r.unsel, r.aborted⟩

/-- `EventQueue::ProcessEventQueue`: detach the current sequence and the
focus slot into a local copy (leaving the live queue empty), deliver a
still-valid pending focus event first, run the loop over the detached
sequence, then report the accumulated selection deltas once. Returns the
notifications in delivery order and the queue left for the next
generation. -/
def ProcessEventQueue (env : DrainEnv) (q : EventQueue) :
    List Notification × EventQueue :=
  let events := q.mEvents
  let focusNotifs : List Notification :=
    match q.mFocusEvent with
    | some f =>
        if env.isDefunct f.mAccessible then []
        else [Notification.focusDelivered f.mAccessible]
    | none => []
  let r := drainLoop env events events [] []
  let finalNotifs : List Notification :=
    if r.aborted = false ∧ env.docValid = true ∧ env.ipcActive = true ∧
        (r.sel ≠ [] ∨ r.unsel ≠ []) then
      [Notification.selectedChanged r.sel r.unsel]
    else []
  (focusNotifs ++ r.notifs ++ finalNotifs, emptyQueue)

/-- The drain loop instrumented with the live queue: identical to
`drainLoop`, except that while the entry the countdown designates is
being processed, a side effect pushes `pushEv` onto the live queue (the
queue left empty by the detach). Models a listener of the generic sink
calling back into `PushEvent` mid-drain. -/
def drainLoopWithPush (env : DrainEnv) (all : List AccEvent)
    (pushEv : AccEvent) :
    List AccEvent → Option Nat → EventQueue → List Nat → List Nat →
      LoopRes × EventQueue
  | [], _, live, sel, unsel => (⟨[], sel, unsel, false⟩, live)
  | event :: rest, pushAt, live, sel, unsel =>
      let live' :=
        if pushAt = some 0 then (PushEvent live pushEv).queue else live
      let pushAt' : Option Nat :=
        match pushAt with
        | some (k + 1) => some k
        | _ => none
      if env.isDefunct event.mAccessible then
        drainLoopWithPush env all pushEv rest pushAt' live' sel unsel
      else
        let sp := collectSelChange env event sel unsel
        if event.mEventRule = EventRule.eDoNotEmit then
          drainLoopWithPush env all pushEv rest pushAt' live' sp.1 sp.2
        else if event.mEventType = EventType.textSelectionChanged then
          let r := drainLoopWithPush env all pushEv rest pushAt' live' sp.1 sp.2
          (⟨Notification.textSelDelivered event.mAccessible :: r.1.notifs,
            r.1.sel, r.1.unsel, r.1.aborted⟩, r.2)
        else
          let fired := selStateNotifs all event ++ [Notification.eventFired event]
          if env.docValid = false then (⟨fired, sp.1, sp.2, true⟩, live')
          else
            let r := drainLoopWithPush env all pushEv rest pushAt' live' sp.1 sp.2
            (⟨fired ++ mutationFlushNotifs env event ++ r.1.notifs,
              r.1.sel, r.1.unsel, r.1.aborted⟩, r.2)

/-- `ProcessEventQueue` with a mid-drain side-effect push: the drain
detaches the sequence, then a listener pushes `pushEv` while entry
`pushAt` is processed. Returns the notifications and the live queue the
drain leaves behind. -/
def ProcessEventQueueWithPush (env : DrainEnv) (q : EventQueue)
    (pushEv : AccEvent) (pushAt : Nat) : List Notification × EventQueue :=
  let events := q.mEvents
  let focusNotifs : List Notification :=
    match q.mFocusEvent with
    | some f =>
        if env.isDefunct f.mAccessible then []
        else [Notification.focusDelivered f.mAccessible]
    | none => []
  let r := drainLoopWithPush env events pushEv events (some pushAt) emptyQueue [] []
  let finalNotifs : List Notification :=
    if r.1.aborted = false ∧ env.docValid = true ∧ env.ipcActive = true ∧
        (r.1.sel ≠ [] ∨ r.1.unsel ≠ []) then
      [Notification.selectedChanged r.1.sel r.1.unsel]
    else []
  (focusNotifs ++ r.1.notifs ++ finalNotifs, r.2)

/-- Name resolution method (`ENameValueFlag`). -/
inductive ENameValueFlag where
  | eNameOK
  | eNameFromSubtree
  | eNameFromTooltip
  | eNameFromRelations
  deriving DecidableEq, Repr

/-- The external tree collaborators consulted by the dependency
propagator (`PushNameOrDescriptionChange`): parenthood, name rules, name
resolution, and the labelling/describing relations. -/
structure TreeEnv where
  localParent : Nat → Option Nat
  hasNameRuleSubtree : Nat → Bool
  hasNameRuleSubtreeIfReq : Nat → Bool
  isDoc : Nat → Bool
  isHTMLFileInput : Nat → Bool
  nameFlag : Nat → ENameValueFlag
  nameIsVoid : Nat → Bool
  hasNameDependent : Nat → Bool
  hasDescriptionDependent : Nat → Bool
  labelForTargets : Nat → List Nat
  descriptionForTargets : Nat → List Nat

/-- The decision table of the direct ancestor name-change check: an HTML
file input always fires; otherwise fire according to how the ancestor's
name was last resolved (direct literal → only when the name became void;
subtree, tooltip or relation → always). -/
def fireNameChangeAt (env : TreeEnv) (parent : Nat) : Bool :=
  if env.isHTMLFileInput parent then true
  else
    match env.nameFlag parent with
    | ENameValueFlag.eNameOK => env.nameIsVoid parent
    | ENameValueFlag.eNameFromSubtree => true
    | ENameValueFlag.eNameFromTooltip => true
    | ENameValueFlag.eNameFromRelations => true

/-- One visited ancestor of the dependency walk, recording what the walk
did there: whether the direct-check flag (`nameCheckAncestor`) was still
set on entry, whether the ancestor qualified for the direct check
(the guard `(maybeTargetNameChanged || parent != target) &&
HasNameRule(parent, eNameFromSubtreeRule)`), whether the direct check
therefore ran, whether it fired a name-change event, and the relation
targets for which derived name/description-change events were pushed. -/
structure WalkStep where
  node : Nat
  checkEnabled : Bool
  qualifies : Bool
  directCheckRan : Bool
  firedNameChange : Bool
  labelRelTargets : List Nat
  descRelTargets : List Nat
  deriving DecidableEq, Repr

/-- The record of one visited ancestor: the direct check runs exactly
when the walk still does name propagation, the `nameCheckAncestor` flag
is still set, and the ancestor qualifies; it fires by the decision
table; relation targets are recorded for the name and description
relation passes. -/
def walkStepAt (env : TreeEnv) (target : Nat) (maybeTargetNameChanged : Bool)
    (doName doDesc : Bool) (parent : Nat) (nameCheckAncestor : Bool) :
    WalkStep :=
  let qualifies :=
    (maybeTargetNameChanged || decide (parent ≠ target)) &&
      env.hasNameRuleSubtree parent
  let ran := doName && nameCheckAncestor && qualifies
  ⟨parent, nameCheckAncestor, qualifies, ran,
   ran && fireNameChangeAt env parent,
   if doName then env.labelForTargets parent else [],
   if doDesc then env.descriptionForTargets parent else []⟩

/-- The upward walk of `PushNameOrDescriptionChange`, as the trace of
visited ancestors. `fuel` bounds the walk depth (the source walks a
finite ancestor chain); the walk stops at a document root, at a node
without a parent, or at a parent without the conditional
subtree-name rule; the direct-check flag is cleared exactly when the
check ran. -/
def nameWalk (env : TreeEnv) (target : Nat) (maybeTargetNameChanged : Bool)
    (doName doDesc : Bool) :
    Nat → Nat → Bool → List WalkStep
  | 0, _, _ => []
  | fuel + 1, parent, nameCheckAncestor =>
      let step :=
        walkStepAt env target maybeTargetNameChanged doName doDesc parent
          nameCheckAncestor
      let nameCheckAncestor' :=
        if step.directCheckRan then false else nameCheckAncestor
      if env.isDoc parent then [step]
      else
        match env.localParent parent with
        | none => [step]
        | some p =>
            if env.hasNameRuleSubtreeIfReq p then
              step :: nameWalk env target maybeTargetNameChanged doName doDesc
                fuel p nameCheckAncestor'
            else [step]

/-- `PushNameOrDescriptionChange`, as the trace of its upward walk: the
entry guards (`maybeTargetNameChanged`, `doName`, `doDesc`) computed as
in the source, then the walk from the target with the direct-check flag
initially set. -/
def pushNameOrDescriptionChangeTrace (env : TreeEnv) (target : Nat)
    (origType : EventType) (fuel : Nat) : List WalkStep :=
  let maybeTargetNameChanged :=
    (decide (origType = EventType.textRemoved) ||
     decide (origType = EventType.textInserted) ||
     decide (origType = EventType.reorder) ||
     decide (origType = EventType.innerReorder)) &&
      env.hasNameRuleSubtree target
  let doName := env.hasNameDependent target || maybeTargetNameChanged
  let doDesc := env.hasDescriptionDependent target
  if doName = false ∧ doDesc = false then []
  else nameWalk env target maybeTargetNameChanged doName doDesc fuel target true

/-! ### Basic sequence-access lemmas -/

theorem getEv_eq_getElem (l : List AccEvent) (i : Nat) (h : i < l.length) :
    getEv l i = l[i] := by
  simp [getEv, List.getD_eq_getElem?_getD, List.getElem?_eq_getElem h]

theorem getEv_append_left (l : List AccEvent) (e : AccEvent) (i : Nat)
    (h : i < l.length) : getEv (l ++ [e]) i = getEv l i := by
  simp [getEv, List.getD_eq_getElem?_getD, List.getElem?_append_left h]

theorem getEv_append_length (l : List AccEvent) (e : AccEvent) :
    getEv (l ++ [e]) l.length = e := by
  simp [getEv, List.getD_eq_getElem?_getD, List.getElem?_concat_length]

theorem getEv_set_self (l : List AccEvent) (i : Nat) (x : AccEvent)
    (h : i < l.length) : getEv (l.set i x) i = x := by
  simp [getEv, List.getD_eq_getElem?_getD, List.getElem?_set_self h]

theorem getEv_set_ne (l : List AccEvent) (i j : Nat) (x : AccEvent)
    (h : i ≠ j) : getEv (l.set i x) j = getEv l j := by
  simp [getEv, List.getD_eq_getElem?_getD, List.getElem?_set_ne h]

theorem getEv_modifyEv_self (l : List AccEvent) (i : Nat)
    (f : AccEvent → AccEvent) (h : i < l.length) :
    getEv (modifyEv l i f) i = f (getEv l i) :=
  getEv_set_self l i _ h

theorem getEv_modifyEv_ne (l : List AccEvent) (i j : Nat)
    (f : AccEvent → AccEvent) (h : i ≠ j) :
    getEv (modifyEv l i f) j = getEv l j :=
  getEv_set_ne l i j _ h

theorem length_modifyEv (l : List AccEvent) (i : Nat)
    (f : AccEvent → AccEvent) : (modifyEv l i f).length = l.length :=
  List.length_set l i _

theorem getEv_mem_or_dummy (l : List AccEvent) (i : Nat) :
    getEv l i ∈ l ∨ getEv l i = dummyEvent := by
  by_cases h : i < l.length
  · exact Or.inl (by rw [getEv_eq_getElem l i h]; exact l.getElem_mem h)
  · right
    simp [getEv, List.getD_eq_getElem?_getD, List.getElem?_eq_none (Nat.le_of_not_lt h)]

/-! ### Length preservation of the coalescing passes -/

theorem length_packScan (r : EventRule) (w : Nat) :
    ∀ (n : Nat) (l : List AccEvent), (packScan r w n l).length = l.length := by
  intro n
  induction n with
  | zero => intro l; rfl
  | succ j ih =>
      intro l
      simp only [packScan]
      split
      · rw [ih, List.length_set]
      · rw [ih]

theorem length_coalesceSelChangeEvents (l : List AccEvent) (t i : Nat) :
    (CoalesceSelChangeEvents l t i).length = l.length := by
  simp only [CoalesceSelChangeEvents]
  split
  · split
    · rw [length_packScan]
      simp [length_modifyEv]
    · simp [length_modifyEv]
  · split
    · simp [length_modifyEv]
    · split
      · simp [length_modifyEv]
      · split
        · split
          · simp [length_modifyEv]
          · simp [length_modifyEv]
        · split
          · simp [length_modifyEv]
          · simp [length_modifyEv]

theorem length_coalesceSameTypeScan (tailEv : AccEvent) :
    ∀ (n : Nat) (l : List AccEvent),
      (coalesceSameTypeScan tailEv n l).length = l.length := by
  intro n
  induction n with
  | zero => intro l; rfl
  | succ i ih =>
      intro l
      simp only [coalesceSameTypeScan]
      split
      · rw [List.length_set]
      · rw [ih]

theorem length_coalesceSelScan (t : Nat) :
    ∀ (n : Nat) (l : List AccEvent),
      (coalesceSelScan t n l).length = l.length := by
  intro n
  induction n with
  | zero => intro l; rfl
  | succ i ih =>
      intro l
      simp only [coalesceSelScan]
      split
      · rw [length_coalesceSelChangeEvents]
      · rw [ih]

theorem length_coalesceStateScan (t : Nat) :
    ∀ (n : Nat) (l : List AccEvent),
      (coalesceStateScan t n l).length = l.length := by
  intro n
  induction n with
  | zero => intro l; rfl
  | succ i ih =>
      intro l
      simp only [coalesceStateScan]
      rw [ih]
      split
      · split
        · split
          · simp [length_modifyEv]
          · simp [length_modifyEv]
        · rfl
      · rfl

theorem length_coalesceTextSelScan (t : Nat) :
    ∀ (n : Nat) (l : List AccEvent),
      (coalesceTextSelScan t n l).length = l.length := by
  intro n
  induction n with
  | zero => intro l; rfl
  | succ i ih =>
      intro l
      simp only [coalesceTextSelScan]
      rw [ih]
      split
      · simp [length_modifyEv]
      · rfl

theorem length_coalesceEvents (l : List AccEvent) :
    (CoalesceEvents l).length = l.length := by
  simp only [CoalesceEvents]
  split
  · rfl
  · split
    · rfl
    · exact length_coalesceSameTypeScan _ _ _
    · exact length_coalesceSelScan _ _ _
    · exact length_coalesceStateScan _ _ _
    · exact length_coalesceTextSelScan _ _ _
    · rfl

theorem coalesceEvents_singleton (e : AccEvent) : CoalesceEvents [e] = [e] := by
  simp only [CoalesceEvents, List.length_singleton]
  cases h : (getEv [e] 0).mEventRule <;> rfl

theorem pushEvent_length_le (q : EventQueue) (e : AccEvent) :
    (PushEvent q e).queue.mEvents.length ≤ q.mEvents.length + 1 := by
  simp only [PushEvent]
  split
  · exact Nat.le_succ _
  · split
    · exact Nat.le_succ _
    · simp [length_coalesceEvents]

/-! ### The duplicate scan characterized -/

theorem dupScan_eq_true_iff (e : AccEvent) :
    ∀ (n : Nat) (l : List AccEvent),
      dupScan e n l = true ↔
        ∃ i, i < n ∧ (getEv l i).mEventType = e.mEventType ∧
          (getEv l i).mEventRule = e.mEventRule ∧
          (getEv l i).mAccessible = e.mAccessible := by
  intro n
  induction n with
  | zero => intro l; simp [dupScan]
  | succ m ih =>
      intro l
      simp only [dupScan]
      split
      · rename_i hm
        simp only [true_iff]
        exact ⟨m, Nat.lt_succ_self m, hm⟩
      · rename_i hm
        rw [ih l]
        constructor
        · rintro ⟨i, hi, hmatch⟩
          exact ⟨i, Nat.lt_succ_of_lt hi, hmatch⟩
        · rintro ⟨i, hi, hmatch⟩
          rcases Nat.lt_succ_iff_lt_or_eq.mp hi with h | h
          · exact ⟨i, h, hmatch⟩
          · subst h; exact absurd hmatch hm

/-- C10: every backward scan of the queue is total and in-bounds in the
embedding: the coalescing passes never change the sequence length (they
only rewrite entries in place), and at the boundary where the tail (or
the matched entry) sits at position 0 every scan — the same-type,
selection-change, state-change and text-selection scans, the pack
suppression scan, and the duplicate scan of push — has an empty range
and leaves the queue untouched (the unsigned-wraparound loop bodies of
the source are unreachable there), while a push grows the sequence by at
most one entry. -/
theorem c10_scans_total_in_bounds :
    (∀ l : List AccEvent, (CoalesceEvents l).length = l.length) ∧
    (∀ (l : List AccEvent) (t i : Nat),
      (CoalesceSelChangeEvents l t i).length = l.length) ∧
    (∀ e : AccEvent, CoalesceEvents [e] = [e]) ∧
    (∀ (r : EventRule) (w : Nat) (l : List AccEvent), packScan r w 0 l = l) ∧
    (∀ (t : Nat) (l : List AccEvent), coalesceSelScan t 0 l = l) ∧
    (∀ (t : Nat) (l : List AccEvent), coalesceStateScan t 0 l = l) ∧
    (∀ (t : Nat) (l : List AccEvent), coalesceTextSelScan t 0 l = l) ∧
    (∀ (ev : AccEvent) (l : List AccEvent), coalesceSameTypeScan ev 0 l = l) ∧
    (∀ (e : AccEvent) (l : List AccEvent), dupScan e 0 l = false) ∧
    (∀ (q : EventQueue) (e : AccEvent),
      (PushEvent q e).queue.mEvents.length ≤ q.mEvents.length + 1) :=
  ⟨length_coalesceEvents, length_coalesceSelChangeEvents,
   coalesceEvents_singleton, fun _ _ _ => rfl, fun _ _ => rfl, fun _ _ => rfl,
   fun _ _ => rfl, fun _ _ => rfl, fun _ _ => rfl, pushEvent_length_le⟩

/-- C7: a push always reports the event as handled; with rule
remove-duplicates and a non-empty sequence, the whole sequence is
scanned newest-to-oldest for a match on kind, rule and target: on a
match the new event is retagged do-not-emit and dropped without
appending, leaving the sequence unchanged, and without a match the event
is appended and the coalescing engine runs on the new tail. -/
theorem c7_remove_dupes_push :
    (∀ (q : EventQueue) (e : AccEvent), (PushEvent q e).accepted = true) ∧
    (∀ (e : AccEvent) (n : Nat) (l : List AccEvent),
      dupScan e n l = true ↔
        ∃ i, i < n ∧ (getEv l i).mEventType = e.mEventType ∧
          (getEv l i).mEventRule = e.mEventRule ∧
          (getEv l i).mAccessible = e.mAccessible) ∧
    (∀ (q : EventQueue) (e : AccEvent),
      e.mEventType ≠ EventType.focus →
      e.mEventRule = EventRule.eRemoveDupes →
      q.mEvents ≠ [] →
      dupScan e q.mEvents.length q.mEvents = true →
      (PushEvent q e).queue = q ∧
      (PushEvent q e).rejected =
        some { e with mEventRule := EventRule.eDoNotEmit }) ∧
    (∀ (q : EventQueue) (e : AccEvent),
      e.mEventType ≠ EventType.focus →
      dupScan e q.mEvents.length q.mEvents = false →
      (PushEvent q e).queue =
        ⟨CoalesceEvents (q.mEvents ++ [e]), q.mFocusEvent⟩ ∧
      (PushEvent q e).rejected = none) := by
  refine ⟨?_, fun e n l => dupScan_eq_true_iff e n l, ?_, ?_⟩
  · intro q e
    simp only [PushEvent]
    split
    · rfl
    · split
      · rfl
      · rfl
  · intro q e hfoc hrule hne hscan
    unfold PushEvent
    rw [if_neg hfoc, if_pos ⟨hrule, hne, hscan⟩]
    exact ⟨rfl, rfl⟩
  · intro q e hfoc hscan
    have hcond : ¬(e.mEventRule = EventRule.eRemoveDupes ∧ q.mEvents ≠ [] ∧
        dupScan e q.mEvents.length q.mEvents = true) := by
      rintro ⟨-, -, h⟩
      rw [hscan] at h
      exact Bool.false_ne_true h
    unfold PushEvent
    rw [if_neg hfoc, if_neg hcond]
    exact ⟨rfl, rfl⟩

/-- Concrete instantiation of the remove-duplicates push theorem: a
duplicate name-change push is dropped with the sequence unchanged, and a
non-duplicate push is appended. -/
theorem c7_remove_dupes_push_witness :
    (PushEvent
        ⟨[⟨EventType.nameChange, EventRule.eRemoveDupes, 7, false, 0, 0,
           SelChangeType.eSelectionAdd, 0, none, 0, false, 0⟩], none⟩
        ⟨EventType.nameChange, EventRule.eRemoveDupes, 7, false, 0, 0,
         SelChangeType.eSelectionAdd, 0, none, 0, false, 0⟩).queue =
      ⟨[⟨EventType.nameChange, EventRule.eRemoveDupes, 7, false, 0, 0,
         SelChangeType.eSelectionAdd, 0, none, 0, false, 0⟩], none⟩ ∧
    (PushEvent
        ⟨[⟨EventType.nameChange, EventRule.eRemoveDupes, 7, false, 0, 0,
           SelChangeType.eSelectionAdd, 0, none, 0, false, 0⟩], none⟩
        ⟨EventType.nameChange, EventRule.eRemoveDupes, 7, false, 0, 0,
         SelChangeType.eSelectionAdd, 0, none, 0, false, 0⟩).rejected =
      some ⟨EventType.nameChange, EventRule.eDoNotEmit, 7, false, 0, 0,
        SelChangeType.eSelectionAdd, 0, none, 0, false, 0⟩ :=
  c7_remove_dupes_push.2.2.1
    ⟨[⟨EventType.nameChange, EventRule.eRemoveDupes, 7, false, 0, 0,
       SelChangeType.eSelectionAdd, 0, none, 0, false, 0⟩], none⟩
    ⟨EventType.nameChange, EventRule.eRemoveDupes, 7, false, 0, 0,
     SelChangeType.eSelectionAdd, 0, none, 0, false, 0⟩
    (by decide) (by decide) (by decide) (by decide)

/-! ### No focus event ever enters the ordered sequence -/

/-- Every event of the sequence has a non-focus kind. -/
def NoFocus (l : List AccEvent) : Prop :=
  ∀ ev ∈ l, ev.mEventType ≠ EventType.focus

theorem noFocus_set (l : List AccEvent) (i : Nat) (x : AccEvent)
    (hl : NoFocus l) (hx : x.mEventType ≠ EventType.focus) :
    NoFocus (l.set i x) := by
  intro ev hev
  rcases List.mem_or_eq_of_mem_set hev with h | h
  · exact hl ev h
  · rw [h]; exact hx

theorem noFocus_modifyEv (l : List AccEvent) (i : Nat)
    (f : AccEvent → AccEvent) (hl : NoFocus l)
    (hf : ∀ a, a.mEventType ≠ EventType.focus →
      (f a).mEventType ≠ EventType.focus) :
    NoFocus (modifyEv l i f) := by
  apply noFocus_set l i _ hl
  apply hf
  rcases getEv_mem_or_dummy l i with h | h
  · exact hl _ h
  · rw [h]; simp [dummyEvent]

theorem noFocus_packScan (r : EventRule) (w : Nat) :
    ∀ (n : Nat) (l : List AccEvent), NoFocus l → NoFocus (packScan r w n l) := by
  intro n
  induction n with
  | zero => intro l h; exact h
  | succ j ih =>
      intro l hl
      simp only [packScan]
      apply ih
      split
      · apply noFocus_set l j _ hl
        show (getEv l j).mEventType ≠ EventType.focus
        rcases getEv_mem_or_dummy l j with h | h
        · exact hl _ h
        · rw [h]; simp [dummyEvent]
      · exact hl

theorem noFocus_modifyEv_of (l : List AccEvent) (i : Nat)
    (f : AccEvent → AccEvent) (hl : NoFocus l)
    (hf : ∀ a, (f a).mEventType = a.mEventType ∨
      (f a).mEventType ≠ EventType.focus) :
    NoFocus (modifyEv l i f) := by
  apply noFocus_set l i _ hl
  rcases hf (getEv l i) with h | h
  · rw [h]
    rcases getEv_mem_or_dummy l i with hh | hh
    · exact hl _ hh
    · rw [hh]; simp [dummyEvent]
  · exact h

theorem noFocus_coalesceSelChangeEvents (l : List AccEvent) (t i : Nat)
    (hl : NoFocus l) : NoFocus (CoalesceSelChangeEvents l t i) := by
  simp only [CoalesceSelChangeEvents]
  split
  · split
    · exact noFocus_packScan _ _ _ _
        (noFocus_modifyEv_of _ _ _
          (noFocus_modifyEv_of _ _ _
            (noFocus_modifyEv_of _ _ _ hl (fun a => Or.inl rfl))
            (fun a => Or.inr (by show EventType.selectionWithin ≠ _; simp)))
          (fun a => Or.inl rfl))
    · exact noFocus_modifyEv_of _ _ _
        (noFocus_modifyEv_of _ _ _
          (noFocus_modifyEv_of _ _ _ hl (fun a => Or.inl rfl))
          (fun a => Or.inr (by show EventType.selectionWithin ≠ _; simp)))
        (fun a => Or.inl rfl)
  · split
    · exact noFocus_modifyEv_of _ _ _
        (noFocus_modifyEv_of _ _ _
          (noFocus_modifyEv_of _ _ _ hl (fun a => Or.inl rfl))
          (fun a => Or.inl rfl))
        (fun a => Or.inr (by show EventType.selection ≠ _; simp))
    · split
      · exact noFocus_modifyEv_of _ _ _
          (noFocus_modifyEv_of _ _ _
            (noFocus_modifyEv_of _ _ _ hl (fun a => Or.inl rfl))
            (fun a => Or.inl rfl))
          (fun a => Or.inr (by show EventType.selection ≠ _; simp))
      · split
        · refine noFocus_modifyEv_of _ _ _ ?_ (fun a => Or.inr (by
            show (if a.mSelChangeType = SelChangeType.eSelectionAdd then
              EventType.selectionAdd else EventType.selectionRemove) ≠ _
            split <;> simp))
          split
          · exact noFocus_modifyEv_of _ _ _
              (noFocus_modifyEv_of _ _ _
                (noFocus_modifyEv_of _ _ _ hl (fun a => Or.inl rfl))
                (fun a => Or.inr (by
                  show (if a.mSelChangeType = SelChangeType.eSelectionAdd then
                    EventType.selectionAdd else EventType.selectionRemove) ≠ _
                  split <;> simp)))
              (fun a => Or.inl rfl)
          · exact noFocus_modifyEv_of _ _ _ hl (fun a => Or.inl rfl)
        · split
          · exact noFocus_modifyEv_of _ _ _
              (noFocus_modifyEv_of _ _ _ hl (fun a => Or.inl rfl))
              (fun a => Or.inr (by show EventType.selectionAdd ≠ _; simp))
          · exact noFocus_modifyEv_of _ _ _ hl (fun a => Or.inl rfl)

theorem noFocus_coalesceSameTypeScan (tailEv : AccEvent) :
    ∀ (n : Nat) (l : List AccEvent), NoFocus l →
      NoFocus (coalesceSameTypeScan tailEv n l) := by
  intro n
  induction n with
  | zero => intro l h; exact h
  | succ i ih =>
      intro l hl
      simp only [coalesceSameTypeScan]
      split
      · apply noFocus_set l i _ hl
        show (getEv l i).mEventType ≠ EventType.focus
        rcases getEv_mem_or_dummy l i with h | h
        · exact hl _ h
        · rw [h]; simp [dummyEvent]
      · exact ih l hl

theorem noFocus_coalesceSelScan (t : Nat) :
    ∀ (n : Nat) (l : List AccEvent), NoFocus l →
      NoFocus (coalesceSelScan t n l) := by
  intro n
  induction n with
  | zero => intro l h; exact h
  | succ i ih =>
      intro l hl
      simp only [coalesceSelScan]
      split
      · exact noFocus_coalesceSelChangeEvents l t i hl
      · exact ih l hl

theorem noFocus_coalesceStateScan (t : Nat) :
    ∀ (n : Nat) (l : List AccEvent), NoFocus l →
      NoFocus (coalesceStateScan t n l) := by
  intro n
  induction n with
  | zero => intro l h; exact h
  | succ i ih =>
      intro l hl
      simp only [coalesceStateScan]
      apply ih
      split
      · split
        · split
          · exact noFocus_modifyEv _ _ _
              (noFocus_modifyEv _ _ _ hl (fun a ha => ha))
              (fun a ha => ha)
          · exact noFocus_modifyEv _ _ _ hl (fun a ha => ha)
        · exact hl
      · exact hl

theorem noFocus_coalesceTextSelScan (t : Nat) :
    ∀ (n : Nat) (l : List AccEvent), NoFocus l →
      NoFocus (coalesceTextSelScan t n l) := by
  intro n
  induction n with
  | zero => intro l h; exact h
  | succ i ih =>
      intro l hl
      simp only [coalesceTextSelScan]
      apply ih
      split
      · exact noFocus_modifyEv _ _ _ hl (fun a ha => ha)
      · exact hl

theorem noFocus_coalesceEvents (l : List AccEvent) (hl : NoFocus l) :
    NoFocus (CoalesceEvents l) := by
  simp only [CoalesceEvents]
  split
  · exact hl
  · split
    · exact hl
    · exact noFocus_coalesceSameTypeScan _ _ _ hl
    · exact noFocus_coalesceSelScan _ _ _ hl
    · exact noFocus_coalesceStateScan _ _ _ hl
    · exact noFocus_coalesceTextSelScan _ _ _ hl
    · exact hl

theorem noFocus_pushEvent (q : EventQueue) (e : AccEvent)
    (hq : NoFocus q.mEvents) : NoFocus (PushEvent q e).queue.mEvents := by
  unfold PushEvent
  split
  · exact hq
  · split
    · exact hq
    · rename_i hfoc _
      apply noFocus_coalesceEvents
      intro ev hev
      rcases List.mem_append.mp hev with h | h
      · exact hq ev h
      · rw [List.mem_singleton.mp h]; exact hfoc

/-- The last focus-kinded event of a push list, if any: the value the
focus slot holds after the pushes. -/
def lastFocus (es : List AccEvent) : Option AccEvent :=
  es.foldl
    (fun acc e => if e.mEventType = EventType.focus then some e else acc) none

theorem pushEvent_focusSlot (q : EventQueue) (e : AccEvent) :
    (PushEvent q e).queue.mFocusEvent =
      if e.mEventType = EventType.focus then some e else q.mFocusEvent := by
  unfold PushEvent
  split
  · rfl
  · split
    · rfl
    · rfl

theorem pushAll_focusSlot :
    ∀ (es : List AccEvent) (q : EventQueue),
      (pushAll es q).mFocusEvent =
        es.foldl
          (fun acc e =>
            if e.mEventType = EventType.focus then some e else acc)
          q.mFocusEvent := by
  intro es
  induction es with
  | nil => intro q; rfl
  | cons e rest ih =>
      intro q
      simp only [pushAll, List.foldl_cons]
      rw [← pushAll, ih, pushEvent_focusSlot]

/-- C2: after any sequence of pushes from the empty queue, the ordered
sequence contains no focus-kinded event (a focus push only overwrites the
focus slot), the focus slot holds the most recently pushed focus event,
and if the slot is filled and its target is still valid at drain time
then the drain delivers the focus notification strictly first, before
every other notification of the generation. -/
theorem c2_focus_delivered_first (es : List AccEvent) (env : DrainEnv)
    (f : AccEvent) :
    (∀ ev ∈ (pushAll es emptyQueue).mEvents,
      ev.mEventType ≠ EventType.focus) ∧
    ((pushAll es emptyQueue).mFocusEvent = lastFocus es) ∧
    ((pushAll es emptyQueue).mFocusEvent = some f →
      env.isDefunct f.mAccessible = false →
      ∃ rest, (ProcessEventQueue env (pushAll es emptyQueue)).1 =
        Notification.focusDelivered f.mAccessible :: rest) := by
  refine ⟨?_, ?_, ?_⟩
  · have : NoFocus (pushAll es emptyQueue).mEvents := by
      have base : NoFocus (emptyQueue).mEvents := by
        intro ev hev; cases hev
      clear f
      induction es using List.reverseRecOn with
      | nil => exact base
      | append_singleton rest e ih =>
          simp only [pushAll, List.foldl_append, List.foldl_cons,
            List.foldl_nil]
          exact noFocus_pushEvent _ e ih
    exact this
  · rw [pushAll_focusSlot]; rfl
  · intro hslot hvalid
    unfold ProcessEventQueue
    rw [hslot]
    simp only [hvalid, Bool.false_eq_true, if_false]
    exact ⟨_, rfl⟩

/-- Concrete instantiation of the focus-first theorem: a focus push
followed by a state-change push; the drain delivers the focus
notification first. -/
theorem c2_focus_delivered_first_witness :
    ((pushAll
        [⟨EventType.focus, EventRule.eAllowDupes, 3, false, 0, 0,
          SelChangeType.eSelectionAdd, 0, none, 0, false, 0⟩,
         ⟨EventType.stateChange, EventRule.eCoalesceStateChange, 4, false, 0, 0,
          SelChangeType.eSelectionAdd, 0, none, 1, true, 0⟩]
        emptyQueue).mFocusEvent =
      lastFocus
        [⟨EventType.focus, EventRule.eAllowDupes, 3, false, 0, 0,
          SelChangeType.eSelectionAdd, 0, none, 0, false, 0⟩,
         ⟨EventType.stateChange, EventRule.eCoalesceStateChange, 4, false, 0, 0,
          SelChangeType.eSelectionAdd, 0, none, 1, true, 0⟩]) ∧
    ∃ rest,
      (ProcessEventQueue ⟨fun _ => false, fun _ => false, false, true⟩
          (pushAll
            [⟨EventType.focus, EventRule.eAllowDupes, 3, false, 0, 0,
              SelChangeType.eSelectionAdd, 0, none, 0, false, 0⟩,
             ⟨EventType.stateChange, EventRule.eCoalesceStateChange, 4, false,
              0, 0, SelChangeType.eSelectionAdd, 0, none, 1, true, 0⟩]
            emptyQueue)).1 =
        Notification.focusDelivered 3 :: rest := by
  have h := c2_focus_delivered_first
    [⟨EventType.focus, EventRule.eAllowDupes, 3, false, 0, 0,
      SelChangeType.eSelectionAdd, 0, none, 0, false, 0⟩,
     ⟨EventType.stateChange, EventRule.eCoalesceStateChange, 4, false, 0, 0,
      SelChangeType.eSelectionAdd, 0, none, 1, true, 0⟩]
    ⟨fun _ => false, fun _ => false, false, true⟩
    ⟨EventType.focus, EventRule.eAllowDupes, 3, false, 0, 0,
     SelChangeType.eSelectionAdd, 0, none, 0, false, 0⟩
  exact ⟨h.2.1, h.2.2 (by decide) rfl⟩

/-! ### The mid-drain push never affects the drain in progress -/

set_option maxHeartbeats 2000000 in
theorem drainLoopWithPush_fst (env : DrainEnv) (all : List AccEvent)
    (pushEv : AccEvent) :
    ∀ (rest : List AccEvent) (pushAt : Option Nat) (live : EventQueue)
      (sel unsel : List Nat),
      (drainLoopWithPush env all pushEv rest pushAt live sel unsel).1 =
        drainLoop env all rest sel unsel := by
  intro rest
  induction rest with
  | nil => intro pushAt live sel unsel; rfl
  | cons e r ih =>
      intro pushAt live sel unsel
      simp only [drainLoopWithPush, drainLoop]
      split
      · exact ih _ _ _ _
      · split
        · exact ih _ _ _ _
        · split
          · rw [ih]
          · split
            · rfl
            · rw [ih]

theorem drainLoopWithPush_live_none (env : DrainEnv) (all : List AccEvent)
    (pushEv : AccEvent) :
    ∀ (rest : List AccEvent) (live : EventQueue) (sel unsel : List Nat),
      (drainLoopWithPush env all pushEv rest none live sel unsel).2 = live := by
  intro rest
  induction rest with
  | nil => intro live sel unsel; rfl
  | cons e r ih =>
      intro live sel unsel
      simp only [drainLoopWithPush]
      split
      · exact ih _ _ _
      · split
        · exact ih _ _ _
        · split
          · exact ih _ _ _
          · split
            · rfl
            · exact ih _ _ _

set_option maxHeartbeats 2000000 in
theorem drainLoopWithPush_live_some (env : DrainEnv) (all : List AccEvent)
    (pushEv : AccEvent) (hdoc : env.docValid = true) :
    ∀ (rest : List AccEvent) (k : Nat) (live : EventQueue)
      (sel unsel : List Nat), k < rest.length →
      (drainLoopWithPush env all pushEv rest (some k) live sel unsel).2 =
        (PushEvent live pushEv).queue := by
  intro rest
  induction rest with
  | nil => intro k live sel unsel hk; exact absurd hk (by simp)
  | cons e r ih =>
      intro k live sel unsel hk
      match k with
      | 0 =>
          simp only [drainLoopWithPush]
          split
          · exact drainLoopWithPush_live_none env all pushEv r _ _ _
          · split
            · exact drainLoopWithPush_live_none env all pushEv r _ _ _
            · split
              · exact drainLoopWithPush_live_none env all pushEv r _ _ _
              · split
                · rename_i hfalse
                  rw [hdoc] at hfalse
                  exact absurd hfalse (by simp)
                · exact drainLoopWithPush_live_none env all pushEv r _ _ _
      | k' + 1 =>
          have hk' : k' < r.length := by
            simpa using Nat.lt_of_succ_lt_succ hk
          simp only [drainLoopWithPush]
          split
          · exact ih k' live sel unsel hk'
          · split
            · exact ih k' _ _ _ hk'
            · split
              · exact ih k' _ _ _ hk'
              · split
                · rename_i hfalse
                  rw [hdoc] at hfalse
                  exact absurd hfalse (by simp)
                · exact ih k' _ _ _ hk'

/-- C3: the drain operates on the sequence and focus slot detached at
entry: it leaves the live queue empty for the next generation, a push
performed by a listener's side effect while an entry is being fired
changes none of this drain's notifications, and after the drain the
pushed event sits alone in the live queue, retained for the next
drain. -/
theorem c3_drain_detaches_generation (env : DrainEnv) (q : EventQueue)
    (pushEv : AccEvent) (pushAt : Nat) :
    ((ProcessEventQueue env q).2 = emptyQueue) ∧
    ((ProcessEventQueueWithPush env q pushEv pushAt).1 =
      (ProcessEventQueue env q).1) ∧
    (env.docValid = true → pushAt < q.mEvents.length →
      (ProcessEventQueueWithPush env q pushEv pushAt).2 =
        (PushEvent emptyQueue pushEv).queue) ∧
    (pushEv.mEventType ≠ EventType.focus →
      (PushEvent emptyQueue pushEv).queue.mEvents = [pushEv]) := by
  refine ⟨rfl, ?_, ?_, ?_⟩
  · simp only [ProcessEventQueueWithPush, ProcessEventQueue,
      drainLoopWithPush_fst]
  · intro hdoc hlt
    exact drainLoopWithPush_live_some env q.mEvents pushEv hdoc q.mEvents
      pushAt emptyQueue [] [] hlt
  · intro h
    unfold PushEvent
    rw [if_neg h, if_neg]
    · simp only [emptyQueue, List.nil_append]
      exact coalesceEvents_singleton pushEv
    · rintro ⟨-, h2, -⟩
      exact h2 rfl

/-- Concrete instantiation of the detach theorem: one queued reorder
event, a state-change push fired as a side effect while it is processed;
the pushed event is what the next generation holds. -/
theorem c3_drain_detaches_generation_witness :
    (ProcessEventQueueWithPush ⟨fun _ => false, fun _ => false, false, true⟩
        ⟨[⟨EventType.reorder, EventRule.eCoalesceReorder, 1, false, 0, 0,
           SelChangeType.eSelectionAdd, 0, none, 0, false, 0⟩], none⟩
        ⟨EventType.stateChange, EventRule.eCoalesceStateChange, 2, false, 0, 0,
         SelChangeType.eSelectionAdd, 0, none, 1, true, 0⟩ 0).2 =
      (PushEvent emptyQueue
        ⟨EventType.stateChange, EventRule.eCoalesceStateChange, 2, false, 0, 0,
         SelChangeType.eSelectionAdd, 0, none, 1, true, 0⟩).queue ∧
    (PushEvent emptyQueue
        ⟨EventType.stateChange, EventRule.eCoalesceStateChange, 2, false, 0, 0,
         SelChangeType.eSelectionAdd, 0, none, 1, true, 0⟩).queue.mEvents =
      [⟨EventType.stateChange, EventRule.eCoalesceStateChange, 2, false, 0, 0,
        SelChangeType.eSelectionAdd, 0, none, 1, true, 0⟩] := by
  have h := c3_drain_detaches_generation
    ⟨fun _ => false, fun _ => false, false, true⟩
    ⟨[⟨EventType.reorder, EventRule.eCoalesceReorder, 1, false, 0, 0,
       SelChangeType.eSelectionAdd, 0, none, 0, false, 0⟩], none⟩
    ⟨EventType.stateChange, EventRule.eCoalesceStateChange, 2, false, 0, 0,
     SelChangeType.eSelectionAdd, 0, none, 1, true, 0⟩ 0
  exact ⟨h.2.2.1 rfl (by decide), h.2.2.2 (by decide)⟩

/-! ### State-change cancellation -/

theorem getEv_append_pair_left (l : List AccEvent) (a b : AccEvent) (i : Nat)
    (h : i < l.length) : getEv (l ++ [a, b]) i = getEv l i := by
  simp [getEv, List.getD_eq_getElem?_getD, List.getElem?_append_left h]

theorem getEv_append_pair_mid (l : List AccEvent) (a b : AccEvent) :
    getEv (l ++ [a, b]) l.length = a := by
  simp [getEv, List.getD_eq_getElem?_getD,
    List.getElem?_append_right (Nat.le_refl l.length)]

theorem getEv_append_pair_last (l : List AccEvent) (a b : AccEvent) :
    getEv (l ++ [a, b]) (l.length + 1) = b := by
  simp [getEv, List.getD_eq_getElem?_getD,
    List.getElem?_append_right (Nat.le_succ_of_le (Nat.le_refl l.length))]

theorem set_append_pair_fst (l : List AccEvent) (a b x : AccEvent) :
    (l ++ [a, b]).set l.length x = l ++ [x, b] := by
  rw [List.set_append, if_neg (by simp)]
  simp

theorem set_append_pair_snd (l : List AccEvent) (a b x : AccEvent) :
    (l ++ [a, b]).set (l.length + 1) x = l ++ [a, x] := by
  rw [List.set_append, if_neg (by simp)]
  simp [Nat.add_sub_cancel_left]

/-- A state-change scan over a prefix without any non-suppressed entry
matching the tail's kind and target changes nothing. -/
theorem stateScan_no_match (t : Nat) :
    ∀ (n : Nat) (l : List AccEvent),
      (∀ i, i < n →
        ¬((getEv l i).mEventRule ≠ EventRule.eDoNotEmit ∧
          (getEv l i).mEventType = (getEv l t).mEventType ∧
          (getEv l i).mAccessible = (getEv l t).mAccessible)) →
      coalesceStateScan t n l = l := by
  intro n
  induction n with
  | zero => intro l _; rfl
  | succ i ih =>
      intro l h
      simp only [coalesceStateScan]
      rw [if_neg (h i (Nat.lt_succ_self i))]
      exact ih l (fun j hj => h j (Nat.lt_succ_of_lt hj))

theorem selStateNotifs_congr (all all' : List AccEvent) (event : AccEvent)
    (h : ∀ p, event.mPackedEvent = some p → getEv all p = getEv all' p) :
    selStateNotifs all event = selStateNotifs all' event := by
  unfold selStateNotifs
  split
  · rfl
  · split
    · rfl
    · split
      · cases hp : event.mPackedEvent with
        | none => rfl
        | some p => simp [h p hp]
      · rfl

/-- The drain loop reads the detached list `all` only through
packed-partner indices: two lists agreeing there drain identically. -/
theorem drainLoop_all_congr (env : DrainEnv) (all all' : List AccEvent) :
    ∀ (rest : List AccEvent) (sel unsel : List Nat),
      (∀ ev ∈ rest, ∀ p, ev.mPackedEvent = some p →
        getEv all p = getEv all' p) →
      drainLoop env all rest sel unsel = drainLoop env all' rest sel unsel := by
  intro rest
  induction rest with
  | nil => intro sel unsel _; rfl
  | cons e r ih =>
      intro sel unsel h
      have he : ∀ p, e.mPackedEvent = some p → getEv all p = getEv all' p :=
        h e (List.mem_cons_self e r)
      have hr : ∀ ev ∈ r, ∀ p, ev.mPackedEvent = some p →
          getEv all p = getEv all' p :=
        fun ev hev => h ev (List.mem_cons_of_mem e hev)
      simp only [drainLoop]
      split
      · exact ih _ _ hr
      · split
        · exact ih _ _ hr
        · split
          · rw [ih _ _ hr]
          · rw [selStateNotifs_congr all all' e he]
            split
            · rfl
            · rw [ih _ _ hr]

/-- Trailing suppressed state-change entries contribute nothing to a
drain. -/
theorem drainLoop_extra_skip (env : DrainEnv) (all : List AccEvent) :
    ∀ (extra : List AccEvent) (sel unsel : List Nat),
      (∀ ev ∈ extra, ev.mEventRule = EventRule.eDoNotEmit ∧
        ev.mEventType = EventType.stateChange) →
      drainLoop env all extra sel unsel = ⟨[], sel, unsel, false⟩ := by
  intro extra
  induction extra with
  | nil => intro sel unsel _; rfl
  | cons e r ih =>
      intro sel unsel h
      obtain ⟨hrule, htype⟩ := h e (List.mem_cons_self e r)
      have hr := fun ev hev => h ev (List.mem_cons_of_mem e hev)
      have hsp : collectSelChange env e sel unsel = (sel, unsel) := by
        unfold collectSelChange
        rw [if_neg]
        simp [htype]
      simp only [drainLoop]
      split
      · exact ih _ _ hr
      · simp only [hsp, hrule, if_true]
        exact ih _ _ hr

theorem drainLoop_append_skip (env : DrainEnv) (all : List AccEvent)
    (extra : List AccEvent)
    (hextra : ∀ ev ∈ extra, ev.mEventRule = EventRule.eDoNotEmit ∧
      ev.mEventType = EventType.stateChange) :
    ∀ (rest : List AccEvent) (sel unsel : List Nat),
      drainLoop env all (rest ++ extra) sel unsel =
        drainLoop env all rest sel unsel := by
  intro rest
  induction rest with
  | nil =>
      intro sel unsel
      simp only [List.nil_append]
      exact drainLoop_extra_skip env all extra sel unsel hextra
  | cons e r ih =>
      intro sel unsel
      simp only [List.cons_append, drainLoop]
      split
      · exact ih _ _
      · split
        · exact ih _ _
        · split
          · simp only [List.append_eq, ih]
          · split
            · rfl
            · simp only [List.append_eq, ih]

theorem getEv_mem (l : List AccEvent) (i : Nat) (h : i < l.length) :
    getEv l i ∈ l := by
  rw [getEv_eq_getElem l i h]
  exact l.getElem_mem h

/-- Dispatch of the coalescing engine for a state-change tail. -/
theorem coalesceEvents_dispatch_state (l : List AccEvent) (n : Nat)
    (hlen : l.length = n + 1)
    (hrule : (getEv l n).mEventRule = EventRule.eCoalesceStateChange) :
    CoalesceEvents l = coalesceStateScan n n l := by
  simp only [CoalesceEvents, hlen]
  rw [hrule]

/-- Dispatch of the coalescing engine for a selection-change tail. -/
theorem coalesceEvents_dispatch_sel (l : List AccEvent) (n : Nat)
    (hlen : l.length = n + 1)
    (hrule : (getEv l n).mEventRule = EventRule.eCoalesceSelectionChange) :
    CoalesceEvents l = coalesceSelScan n n l := by
  simp only [CoalesceEvents, hlen]
  rw [hrule]

/-- C6: two state-change events with the same kind, target and state bit
but opposite enabled flags, pushed into the same generation (no other
entry for that kind and target present), are both retagged do-not-emit
by coalescing and the drain delivers exactly what it would have
delivered had neither been pushed. -/
theorem c6_opposite_state_changes_cancel
    (q : EventQueue) (e1 e2 : AccEvent) (env : DrainEnv)
    (hT1 : e1.mEventType = EventType.stateChange)
    (hT2 : e2.mEventType = EventType.stateChange)
    (hR1 : e1.mEventRule = EventRule.eCoalesceStateChange)
    (hR2 : e2.mEventRule = EventRule.eCoalesceStateChange)
    (hA : e1.mAccessible = e2.mAccessible)
    (hS : e1.mState = e2.mState)
    (hE : e1.mIsEnabled ≠ e2.mIsEnabled)
    (hq : ∀ ev ∈ q.mEvents,
      ¬(ev.mEventType = EventType.stateChange ∧
        ev.mAccessible = e2.mAccessible))
    (hPacked : ∀ ev ∈ q.mEvents, ∀ p, ev.mPackedEvent = some p →
      p < q.mEvents.length) :
    (pushAll [e1, e2] q).mEvents =
      q.mEvents ++ [{ e1 with mEventRule := EventRule.eDoNotEmit },
                    { e2 with mEventRule := EventRule.eDoNotEmit }] ∧
    (ProcessEventQueue env (pushAll [e1, e2] q)).1 =
      (ProcessEventQueue env q).1 := by
  have hpush1 : (PushEvent q e1).queue =
      ⟨CoalesceEvents (q.mEvents ++ [e1]), q.mFocusEvent⟩ := by
    unfold PushEvent
    rw [if_neg (by simp [hT1]), if_neg (by simp [hR1])]
  have hB : CoalesceEvents (q.mEvents ++ [e1]) = q.mEvents ++ [e1] := by
    rw [coalesceEvents_dispatch_state _ q.mEvents.length (by simp)
      (by rw [getEv_append_length]; exact hR1)]
    apply stateScan_no_match
    intro i hi
    rw [getEv_append_length, getEv_append_left _ _ _ hi]
    rintro ⟨-, ht, ha⟩
    exact hq (getEv q.mEvents i) (getEv_mem _ _ hi)
      ⟨by rw [ht, hT1], by rw [ha, hA]⟩
  have hassoc : (q.mEvents ++ [e1]) ++ [e2] = q.mEvents ++ [e1, e2] := by simp
  have hscan2 : coalesceStateScan (q.mEvents.length + 1)
      (q.mEvents.length + 1) (q.mEvents ++ [e1, e2]) =
      q.mEvents ++ [{ e1 with mEventRule := EventRule.eDoNotEmit },
                    { e2 with mEventRule := EventRule.eDoNotEmit }] := by
    simp only [coalesceStateScan]
    rw [getEv_append_pair_last, getEv_append_pair_mid,
      if_pos ⟨by simp [hR1], by rw [hT1, hT2], hA⟩, if_pos hS, if_pos hE]
    have hm1 : modifyEv (q.mEvents ++ [e1, e2]) q.mEvents.length
        (fun e => { e with mEventRule := EventRule.eDoNotEmit }) =
        q.mEvents ++ [{ e1 with mEventRule := EventRule.eDoNotEmit }, e2] := by
      unfold modifyEv
      rw [getEv_append_pair_mid]
      exact set_append_pair_fst _ _ _ _
    rw [hm1]
    have hm2 : modifyEv
        (q.mEvents ++ [{ e1 with mEventRule := EventRule.eDoNotEmit }, e2])
        (q.mEvents.length + 1)
        (fun e => { e with mEventRule := EventRule.eDoNotEmit }) =
        q.mEvents ++ [{ e1 with mEventRule := EventRule.eDoNotEmit },
                      { e2 with mEventRule := EventRule.eDoNotEmit }] := by
      unfold modifyEv
      rw [getEv_append_pair_last]
      exact set_append_pair_snd _ _ _ _
    rw [hm2]
    apply stateScan_no_match
    intro i hi
    rw [getEv_append_pair_last, getEv_append_pair_left _ _ _ _ hi]
    rintro ⟨-, ht, ha⟩
    exact hq (getEv q.mEvents i) (getEv_mem _ _ hi) ⟨by rw [ht, hT2], ha⟩
  have hq2 : pushAll [e1, e2] q =
      ⟨q.mEvents ++ [{ e1 with mEventRule := EventRule.eDoNotEmit },
                     { e2 with mEventRule := EventRule.eDoNotEmit }],
       q.mFocusEvent⟩ := by
    show (PushEvent (PushEvent q e1).queue e2).queue = _
    rw [hpush1, hB]
    unfold PushEvent
    rw [if_neg (by simp [hT2]), if_neg (by simp [hR2])]
    simp only [hassoc]
    rw [coalesceEvents_dispatch_state _ (q.mEvents.length + 1) (by simp)
      (by rw [getEv_append_pair_last]; exact hR2)]
    rw [hscan2]
  refine ⟨by rw [hq2], ?_⟩
  rw [hq2]
  have hextra : ∀ ev ∈
      [{ e1 with mEventRule := EventRule.eDoNotEmit },
       { e2 with mEventRule := EventRule.eDoNotEmit }],
      ev.mEventRule = EventRule.eDoNotEmit ∧
        ev.mEventType = EventType.stateChange := by
    intro ev hev
    rcases List.mem_cons.mp hev with h | h
    · rw [h]; exact ⟨rfl, hT1⟩
    · rw [List.mem_singleton.mp h]; exact ⟨rfl, hT2⟩
  have hdrain : drainLoop env
      (q.mEvents ++ [{ e1 with mEventRule := EventRule.eDoNotEmit },
                     { e2 with mEventRule := EventRule.eDoNotEmit }])
      (q.mEvents ++ [{ e1 with mEventRule := EventRule.eDoNotEmit },
                     { e2 with mEventRule := EventRule.eDoNotEmit }]) [] [] =
      drainLoop env q.mEvents q.mEvents [] [] := by
    rw [drainLoop_append_skip env _ _ hextra]
    apply drainLoop_all_congr
    intro ev hev p hp
    exact getEv_append_pair_left _ _ _ _ (hPacked ev hev p hp)
  unfold ProcessEventQueue
  dsimp only
  rw [hdrain]

/-- Concrete instantiation of the cancellation theorem: a checked/
unchecked pair for the same node and state bit on top of one unrelated
queued event; the drain output is that of the unrelated event alone. -/
theorem c6_opposite_state_changes_cancel_witness :
    (pushAll
        [⟨EventType.stateChange, EventRule.eCoalesceStateChange, 4, false, 0,
          0, SelChangeType.eSelectionAdd, 0, none, 2, true, 0⟩,
         ⟨EventType.stateChange, EventRule.eCoalesceStateChange, 4, false, 0,
          0, SelChangeType.eSelectionAdd, 0, none, 2, false, 0⟩]
        ⟨[⟨EventType.reorder, EventRule.eCoalesceReorder, 9, false, 0, 0,
           SelChangeType.eSelectionAdd, 0, none, 0, false, 0⟩], none⟩).mEvents =
      [⟨EventType.reorder, EventRule.eCoalesceReorder, 9, false, 0, 0,
        SelChangeType.eSelectionAdd, 0, none, 0, false, 0⟩,
       ⟨EventType.stateChange, EventRule.eDoNotEmit, 4, false, 0, 0,
        SelChangeType.eSelectionAdd, 0, none, 2, true, 0⟩,
       ⟨EventType.stateChange, EventRule.eDoNotEmit, 4, false, 0, 0,
        SelChangeType.eSelectionAdd, 0, none, 2, false, 0⟩] ∧
    (ProcessEventQueue ⟨fun _ => false, fun _ => false, false, true⟩
        (pushAll
          [⟨EventType.stateChange, EventRule.eCoalesceStateChange, 4, false,
            0, 0, SelChangeType.eSelectionAdd, 0, none, 2, true, 0⟩,
           ⟨EventType.stateChange, EventRule.eCoalesceStateChange, 4, false,
            0, 0, SelChangeType.eSelectionAdd, 0, none, 2, false, 0⟩]
          ⟨[⟨EventType.reorder, EventRule.eCoalesceReorder, 9, false, 0, 0,
             SelChangeType.eSelectionAdd, 0, none, 0, false, 0⟩], none⟩)).1 =
      (ProcessEventQueue ⟨fun _ => false, fun _ => false, false, true⟩
        ⟨[⟨EventType.reorder, EventRule.eCoalesceReorder, 9, false, 0, 0,
           SelChangeType.eSelectionAdd, 0, none, 0, false, 0⟩], none⟩).1 := by
  have h := c6_opposite_state_changes_cancel
    ⟨[⟨EventType.reorder, EventRule.eCoalesceReorder, 9, false, 0, 0,
       SelChangeType.eSelectionAdd, 0, none, 0, false, 0⟩], none⟩
    ⟨EventType.stateChange, EventRule.eCoalesceStateChange, 4, false, 0, 0,
     SelChangeType.eSelectionAdd, 0, none, 2, true, 0⟩
    ⟨EventType.stateChange, EventRule.eCoalesceStateChange, 4, false, 0, 0,
     SelChangeType.eSelectionAdd, 0, none, 2, false, 0⟩
    ⟨fun _ => false, fun _ => false, false, true⟩
    rfl rfl rfl rfl rfl rfl (by decide) (by decide) (by decide)
  exact h

/-! ### Merging a remove/add pair into a single selection event -/

/-- C4: a selection-remove for item A followed by a selection-add for a
different item B of the same widget (preceding count becoming 1) merges:
the remove is retagged do-not-emit and stored as the add's packed
partner, the add becomes a single "selection" event, and the drain fires
the selected state of B (true), then the selected state of A (false),
then the combined selection event itself. -/
theorem c4_remove_add_pack (e1 e2 : AccEvent) (env : DrainEnv)
    (hT1 : e1.mEventType = EventType.selectionRemove)
    (hT2 : e2.mEventType = EventType.selectionAdd)
    (hR1 : e1.mEventRule = EventRule.eCoalesceSelectionChange)
    (hR2 : e2.mEventRule = EventRule.eCoalesceSelectionChange)
    (hSc1 : e1.mSelChangeType = SelChangeType.eSelectionRemove)
    (hSc2 : e2.mSelChangeType = SelChangeType.eSelectionAdd)
    (hC1 : e1.mPreceedingCount = 0)
    (hW : e1.mWidget = e2.mWidget)
    (hI : e1.mItem ≠ e2.mItem)
    (hIpc : env.ipcActive = false)
    (hDoc : env.docValid = true)
    (hD1 : env.isDefunct e1.mAccessible = false)
    (hD2 : env.isDefunct e2.mAccessible = false) :
    (pushAll [e1, e2] emptyQueue).mEvents =
      [{ e1 with mEventRule := EventRule.eDoNotEmit },
       { e2 with mEventType := EventType.selection, mPreceedingCount := 1,
                 mPackedEvent := some 0 }] ∧
    (ProcessEventQueue env (pushAll [e1, e2] emptyQueue)).1 =
      [Notification.stateFired e2.mAccessible true e2.mIsFromUserInput,
       Notification.stateFired e1.mAccessible false e1.mIsFromUserInput,
       Notification.eventFired
         { e2 with mEventType := EventType.selection, mPreceedingCount := 1,
                   mPackedEvent := some 0 }] := by
  have hp1 : (PushEvent emptyQueue e1).queue = ⟨[e1], none⟩ := by
    unfold PushEvent
    rw [if_neg (by simp [hT1]), if_neg (by simp [emptyQueue])]
    simp [emptyQueue, coalesceEvents_singleton]
  have hp2 : pushAll [e1, e2] emptyQueue =
      ⟨CoalesceEvents [e1, e2], none⟩ := by
    show (PushEvent (PushEvent emptyQueue e1).queue e2).queue = _
    rw [hp1]
    unfold PushEvent
    rw [if_neg (by simp [hT2]), if_neg (by simp [hR2])]
    rfl
  have hco : CoalesceEvents [e1, e2] =
      [{ e1 with mEventRule := EventRule.eDoNotEmit },
       { e2 with mEventType := EventType.selection, mPreceedingCount := 1,
                 mPackedEvent := some 0 }] := by
    rw [coalesceEvents_dispatch_sel [e1, e2] 1 (by simp) (by exact hR2)]
    show coalesceSelScan 1 (0 + 1) [e1, e2] = _
    simp only [coalesceSelScan]
    rw [if_pos ⟨by exact hR1.trans hR2.symm, by exact hW.symm⟩]
    unfold CoalesceSelChangeEvents
    rw [if_neg (by simp [kSelChangeCountToPack, modifyEv, getEv, hC1]),
      if_pos ⟨by simp [modifyEv, getEv, hC1], by simp [modifyEv, getEv]; exact hI.symm,
        by simp [modifyEv, getEv]; exact hSc2, by simp [getEv]; exact hSc1⟩]
    simp [modifyEv, getEv, hC1]
  rw [hp2, hco]
  refine ⟨rfl, ?_⟩
  unfold ProcessEventQueue
  dsimp only
  have hdl : drainLoop env
      [{ e1 with mEventRule := EventRule.eDoNotEmit },
       { e2 with mEventType := EventType.selection, mPreceedingCount := 1,
                 mPackedEvent := some 0 }]
      [{ e1 with mEventRule := EventRule.eDoNotEmit },
       { e2 with mEventType := EventType.selection, mPreceedingCount := 1,
                 mPackedEvent := some 0 }] [] [] =
      ⟨[Notification.stateFired e2.mAccessible true e2.mIsFromUserInput,
        Notification.stateFired e1.mAccessible false e1.mIsFromUserInput,
        Notification.eventFired
          { e2 with mEventType := EventType.selection, mPreceedingCount := 1,
                    mPackedEvent := some 0 }], [], [], false⟩ := by
    simp [drainLoop, collectSelChange, selStateNotifs, mutationFlushNotifs,
      getEv, hIpc, hDoc, hD1, hD2, hR2, hSc1, hSc2]
  rw [hdl]
  simp [hIpc]

/-- Concrete instantiation of the remove/add merge: remove item 1, add
item 2 in widget 7; the drain fires selected(2), unselected(1), then the
combined selection event. -/
theorem c4_remove_add_pack_witness :
    (ProcessEventQueue ⟨fun _ => false, fun _ => false, false, true⟩
        (pushAll
          [⟨EventType.selectionRemove, EventRule.eCoalesceSelectionChange, 1,
            false, 7, 1, SelChangeType.eSelectionRemove, 0, none, 0, false, 0⟩,
           ⟨EventType.selectionAdd, EventRule.eCoalesceSelectionChange, 2,
            false, 7, 2, SelChangeType.eSelectionAdd, 0, none, 0, false, 0⟩]
          emptyQueue)).1 =
      [Notification.stateFired 2 true false,
       Notification.stateFired 1 false false,
       Notification.eventFired
         ⟨EventType.selection, EventRule.eCoalesceSelectionChange, 2, false, 7,
          2, SelChangeType.eSelectionAdd, 1, some 0, 0, false, 0⟩] := by
  have h := c4_remove_add_pack
    ⟨EventType.selectionRemove, EventRule.eCoalesceSelectionChange, 1, false,
     7, 1, SelChangeType.eSelectionRemove, 0, none, 0, false, 0⟩
    ⟨EventType.selectionAdd, EventRule.eCoalesceSelectionChange, 2, false, 7,
     2, SelChangeType.eSelectionAdd, 0, none, 0, false, 0⟩
    ⟨fun _ => false, fun _ => false, false, true⟩
    rfl rfl rfl rfl rfl rfl rfl rfl (by decide) rfl rfl rfl rfl
  exact h.2

/-! ### The selection-change backward scan characterized -/

/-- Entry `i` matches the tail at `t` for the selection-change scan: it
shares the rule and the owning widget. -/
def selMatchAt (l : List AccEvent) (t i : Nat) : Prop :=
  (getEv l i).mEventRule = (getEv l t).mEventRule ∧
  (getEv l t).mWidget = (getEv l i).mWidget

instance (l : List AccEvent) (t i : Nat) : Decidable (selMatchAt l t i) := by
  unfold selMatchAt
  infer_instance

theorem selScan_no_match (t : Nat) :
    ∀ (n : Nat) (l : List AccEvent),
      (∀ i, i < n → ¬ selMatchAt l t i) →
      coalesceSelScan t n l = l := by
  intro n
  induction n with
  | zero => intro l _; rfl
  | succ m ih =>
      intro l h
      simp only [coalesceSelScan]
      rw [if_neg (show ¬((getEv l m).mEventRule = (getEv l t).mEventRule ∧
        (getEv l t).mWidget = (getEv l m).mWidget) from
        h m (Nat.lt_succ_self m))]
      exact ih l (fun j hj => h j (Nat.lt_succ_of_lt hj))

theorem selScan_find (t : Nat) :
    ∀ (n : Nat) (l : List AccEvent) (i : Nat), i < n → selMatchAt l t i →
      (∀ j, i < j → j < n → ¬ selMatchAt l t j) →
      coalesceSelScan t n l = CoalesceSelChangeEvents l t i := by
  intro n
  induction n with
  | zero => intro l i hi; exact absurd hi (Nat.not_lt_zero i)
  | succ m ih =>
      intro l i hi hmatch hblock
      simp only [coalesceSelScan]
      by_cases him : i = m
      · subst him
        rw [if_pos (show (getEv l i).mEventRule = (getEv l t).mEventRule ∧
          (getEv l t).mWidget = (getEv l i).mWidget from hmatch)]
      · have hilt : i < m := Nat.lt_of_le_of_ne (Nat.le_of_lt_succ hi) him
        rw [if_neg (show ¬((getEv l m).mEventRule = (getEv l t).mEventRule ∧
          (getEv l t).mWidget = (getEv l m).mWidget) from
          hblock m hilt (Nat.lt_succ_self m))]
        exact ih l i hilt hmatch
          (fun j hj hjm => hblock j hj (Nat.lt_succ_of_lt hjm))

/-- C5-amended: when the tail has rule coalesce-selection-change, the
backward scan skips earlier entries sharing the rule but owned by a
different widget and keeps scanning; the first earlier entry sharing
both the rule and the widget is handed (with the tail) to the
selection-merge algorithm and the pass stops; if no earlier entry shares
both, the pass is a no-op. -/
theorem c5_selection_scan_first_same_widget (l : List AccEvent)
    (hne : l ≠ [])
    (hrule : (getEv l (l.length - 1)).mEventRule =
      EventRule.eCoalesceSelectionChange) :
    ((∀ i, i < l.length - 1 → ¬ selMatchAt l (l.length - 1) i) →
      CoalesceEvents l = l) ∧
    (∀ i, i < l.length - 1 → selMatchAt l (l.length - 1) i →
      (∀ j, i < j → j < l.length - 1 → ¬ selMatchAt l (l.length - 1) j) →
      CoalesceEvents l = CoalesceSelChangeEvents l (l.length - 1) i) := by
  have hlen : l.length = (l.length - 1) + 1 :=
    (Nat.succ_pred_eq_of_pos (List.length_pos.mpr hne)).symm
  have hdisp := coalesceEvents_dispatch_sel l (l.length - 1) hlen hrule
  constructor
  · intro h
    rw [hdisp]
    exact selScan_no_match _ _ _ h
  · intro i hi hmatch hblock
    rw [hdisp]
    exact selScan_find _ _ _ i hi hmatch hblock

/-- The queue state refuting C5 as stated: a selection-remove for widget
0, then a selection-add for widget 1, then a freshly appended
selection-add tail for widget 0. The first earlier entry sharing the
tail's rule (index 1) targets widget 1, not the tail's widget 0. -/
def c5List : List AccEvent :=
  [⟨EventType.selectionRemove, EventRule.eCoalesceSelectionChange, 1, false,
    0, 1, SelChangeType.eSelectionRemove, 0, none, 0, false, 0⟩,
   ⟨EventType.selectionAdd, EventRule.eCoalesceSelectionChange, 9, false,
    1, 9, SelChangeType.eSelectionAdd, 0, none, 0, false, 0⟩,
   ⟨EventType.selectionAdd, EventRule.eCoalesceSelectionChange, 2, false,
    0, 2, SelChangeType.eSelectionAdd, 0, none, 0, false, 0⟩]

/-- Counterexample to C5 as stated: on `c5List` the first earlier entry
sharing the tail's rule targets a different widget, so by the claim the
pass should be a no-op with no entry beyond it examined or modified —
but the coalescing engine modifies the queue: it scans past that entry,
merges the tail with the widget-0 remove at position 0, retagging it
do-not-emit and turning the tail into a packed "selection" event. -/
theorem c5_counterexample_scan_not_stopped :
    (getEv c5List 1).mEventRule = (getEv c5List 2).mEventRule ∧
    (getEv c5List 2).mWidget ≠ (getEv c5List 1).mWidget ∧
    (getEv (CoalesceEvents c5List) 0).mEventRule = EventRule.eDoNotEmit ∧
    (getEv (CoalesceEvents c5List) 2).mEventType = EventType.selection ∧
    (getEv (CoalesceEvents c5List) 2).mPackedEvent = some 0 ∧
    CoalesceEvents c5List ≠ c5List := by decide

/-- Concrete instantiation of the amended scan theorem on `c5List`: the
match is found at position 0, past the same-rule other-widget entry at
position 1. -/
theorem c5_selection_scan_first_same_widget_witness :
    CoalesceEvents c5List = CoalesceSelChangeEvents c5List 2 0 := by
  have h := (c5_selection_scan_first_same_widget c5List (by decide)
    (by decide)).2 0 (by decide) (by decide)
    (fun j hj hjlt => by
      have hl : c5List.length = 3 := rfl
      rw [hl] at hjlt
      have hj1 : j = 1 := by omega
      subst hj1
      decide)
  exact h

/-! ### Counting delivered entries -/

/-- Whether a notification is a sequence entry delivered through the
generic sink. -/
def isEntryFired : Notification → Bool
  | Notification.eventFired _ => true
  | _ => false

/-- Number of sequence entries delivered through the generic sink. -/
def firedEntryCount (ns : List Notification) : Nat :=
  ns.countP isEntryFired

theorem firedEntryCount_selStateNotifs (all : List AccEvent)
    (event : AccEvent) : firedEntryCount (selStateNotifs all event) = 0 := by
  unfold selStateNotifs firedEntryCount
  split
  · rfl
  · split
    · rfl
    · split
      · cases event.mPackedEvent <;> simp [isEntryFired]
      · rfl

theorem firedEntryCount_mutationFlushNotifs (env : DrainEnv)
    (event : AccEvent) :
    firedEntryCount (mutationFlushNotifs env event) = 0 := by
  unfold mutationFlushNotifs firedEntryCount
  split
  · rfl
  · rfl

theorem firedEntryCount_append (a b : List Notification) :
    firedEntryCount (a ++ b) = firedEntryCount a + firedEntryCount b :=
  List.countP_append _ _ _

theorem firedEntryCount_cons_textSel (t : Nat) (ns : List Notification) :
    firedEntryCount (Notification.textSelDelivered t :: ns) =
      firedEntryCount ns := by
  simp [firedEntryCount, List.countP_cons, isEntryFired]

theorem firedEntryCount_single_event (e : AccEvent) :
    firedEntryCount [Notification.eventFired e] = 1 := by
  simp [firedEntryCount, isEntryFired]

theorem drainLoop_fired_le (env : DrainEnv) (all : List AccEvent) :
    ∀ (rest : List AccEvent) (sel unsel : List Nat),
      firedEntryCount (drainLoop env all rest sel unsel).notifs ≤
        rest.length := by
  intro rest
  induction rest with
  | nil => intro sel unsel; exact Nat.le_refl 0
  | cons e r ih =>
      intro sel unsel
      simp only [drainLoop, List.length_cons]
      split
      · exact Nat.le_succ_of_le (ih _ _)
      · split
        · exact Nat.le_succ_of_le (ih _ _)
        · split
          · rw [firedEntryCount_cons_textSel]
            exact Nat.le_succ_of_le (ih _ _)
          · split
            · rw [firedEntryCount_append, firedEntryCount_selStateNotifs,
                firedEntryCount_single_event]
              omega
            · rw [firedEntryCount_append, firedEntryCount_append,
                firedEntryCount_append, firedEntryCount_selStateNotifs,
                firedEntryCount_single_event,
                firedEntryCount_mutationFlushNotifs]
              have h := ih (collectSelChange env e sel unsel).1
                (collectSelChange env e sel unsel).2
              omega

theorem pushStep_inv (acc : EventQueue × Nat × Nat) (e : AccEvent) :
    (pushStep acc e).1.mEvents.length + (pushStep acc e).2.1 +
      (pushStep acc e).2.2 =
      acc.1.mEvents.length + acc.2.1 + acc.2.2 + 1 := by
  by_cases hfoc : e.mEventType = EventType.focus
  · simp [pushStep, PushEvent, hfoc]
    omega
  · by_cases hdup : (e.mEventRule = EventRule.eRemoveDupes ∧
        acc.1.mEvents ≠ [] ∧
        dupScan e acc.1.mEvents.length acc.1.mEvents = true)
    · simp [pushStep, PushEvent, hfoc, hdup]
      omega
    · simp [pushStep, PushEvent, hfoc, hdup, length_coalesceEvents]
      omega

theorem pushStats_counts (es : List AccEvent) :
    (pushStats es).1.mEvents.length + (pushStats es).2.1 +
      (pushStats es).2.2 = es.length := by
  suffices h : ∀ (es : List AccEvent) (acc : EventQueue × Nat × Nat),
      (es.foldl pushStep acc).1.mEvents.length +
        (es.foldl pushStep acc).2.1 + (es.foldl pushStep acc).2.2 =
        acc.1.mEvents.length + acc.2.1 + acc.2.2 + es.length by
    have h0 := h es (emptyQueue, 0, 0)
    simpa [pushStats, emptyQueue] using h0
  intro es
  induction es with
  | nil => intro acc; simp
  | cons e rest ih =>
      intro acc
      simp only [List.foldl_cons, List.length_cons]
      rw [ih (pushStep acc e)]
      have h := pushStep_inv acc e
      omega

theorem processEventQueue_fired_le (env : DrainEnv) (q : EventQueue) :
    firedEntryCount (ProcessEventQueue env q).1 ≤ q.mEvents.length := by
  unfold ProcessEventQueue
  dsimp only
  rw [firedEntryCount_append, firedEntryCount_append]
  have h1 : firedEntryCount
      (match q.mFocusEvent with
       | some f =>
           if env.isDefunct f.mAccessible = true then []
           else [Notification.focusDelivered f.mAccessible]
       | none => []) = 0 := by
    cases q.mFocusEvent with
    | none => rfl
    | some f =>
        by_cases hd : env.isDefunct f.mAccessible = true
        · simp [hd, firedEntryCount]
        · simp [hd, firedEntryCount, isEntryFired]
  have h2 : ∀ r : LoopRes, firedEntryCount
      (if r.aborted = false ∧ env.docValid = true ∧ env.ipcActive = true ∧
          (r.sel ≠ [] ∨ r.unsel ≠ []) then
        [Notification.selectedChanged r.sel r.unsel]
      else []) = 0 := by
    intro r
    split
    · simp [firedEntryCount, isEntryFired]
    · rfl
  have h3 := drainLoop_fired_le env q.mEvents q.mEvents [] []
  rw [h1, h2]
  omega

/-- C8-amended: pushing N events from the empty queue, the sequence
length just before the drain equals N minus the pushes dropped early by
the remove-duplicates check minus the focus pushes (which go to the
focus slot, never the sequence); coalescing only retags entries in
place, so the drain delivers at most N entries through the generic
sink. -/
theorem c8_push_drain_accounting (es : List AccEvent) (env : DrainEnv) :
    (pushStats es).1.mEvents.length + (pushStats es).2.1 +
      (pushStats es).2.2 = es.length ∧
    firedEntryCount (ProcessEventQueue env (pushStats es).1).1 ≤
      es.length := by
  have h1 := pushStats_counts es
  refine ⟨h1, ?_⟩
  have h2 := processEventQueue_fired_le env (pushStats es).1
  omega

/-- Counterexample to C8 as stated: a single focus push. One push, none
dropped by the remove-duplicates check, yet the sequence length just
before the drain is 0, not 1 − 0: a focus push goes to the focus slot,
not the ordered sequence. -/
theorem c8_counterexample_focus_push :
    (pushStats [⟨EventType.focus, EventRule.eAllowDupes, 3, false, 0, 0,
        SelChangeType.eSelectionAdd, 0, none, 0, false, 0⟩]).1.mEvents.length
      = 0 ∧
    (pushStats [⟨EventType.focus, EventRule.eAllowDupes, 3, false, 0, 0,
        SelChangeType.eSelectionAdd, 0, none, 0, false, 0⟩]).2.1 = 0 ∧
    ([(⟨EventType.focus, EventRule.eAllowDupes, 3, false, 0, 0,
        SelChangeType.eSelectionAdd, 0, none, 0, false, 0⟩ : AccEvent)].length
      - 0 : Nat) ≠ 0 := by decide

/-! ### The dependency walk's direct check -/

/-- Uniform cons shape of a non-exhausted walk: the step at the current
ancestor, followed by the rest of the walk (empty when the walk stops
here). -/
theorem nameWalk_succ_shape (env : TreeEnv) (target : Nat)
    (mtnc doName doDesc : Bool) (fuel start : Nat) (flag : Bool) :
    nameWalk env target mtnc doName doDesc (fuel + 1) start flag =
      walkStepAt env target mtnc doName doDesc start flag ::
        (if env.isDoc start = true then []
         else
           match env.localParent start with
           | none => []
           | some p =>
               if env.hasNameRuleSubtreeIfReq p = true then
                 nameWalk env target mtnc doName doDesc fuel p
                   (if (walkStepAt env target mtnc doName doDesc start
                       flag).directCheckRan = true then false else flag)
               else []) := by
  simp only [nameWalk]
  split
  · rfl
  · split
    · rfl
    · split
      · rfl
      · rfl

theorem nameWalk_ran_eq (env : TreeEnv) (target : Nat)
    (mtnc doName doDesc : Bool) :
    ∀ (fuel start : Nat) (flag : Bool),
      ∀ st ∈ nameWalk env target mtnc doName doDesc fuel start flag,
        st.directCheckRan = (doName && st.checkEnabled && st.qualifies) := by
  intro fuel
  induction fuel with
  | zero => intro start flag st hst; simp [nameWalk] at hst
  | succ f ih =>
      intro start flag st hst
      rw [nameWalk_succ_shape] at hst
      rcases List.mem_cons.mp hst with h | h
      · subst h; rfl
      · split at h
        · cases h
        · split at h
          · cases h
          · split at h
            · exact ih _ _ st h
            · cases h

theorem nameWalk_enabled_false (env : TreeEnv) (target : Nat)
    (mtnc doName doDesc : Bool) :
    ∀ (fuel start : Nat),
      ∀ st ∈ nameWalk env target mtnc doName doDesc fuel start false,
        st.checkEnabled = false := by
  intro fuel
  induction fuel with
  | zero => intro start st hst; simp [nameWalk] at hst
  | succ f ih =>
      intro start st hst
      rw [nameWalk_succ_shape] at hst
      rcases List.mem_cons.mp hst with h | h
      · subst h; rfl
      · rw [ite_self] at h
        split at h
        · cases h
        · split at h
          · cases h
          · split at h
            · exact ih _ st h
            · cases h

theorem nameWalk_ran_false_of_disabled (env : TreeEnv) (target : Nat)
    (mtnc doName doDesc : Bool) (fuel start : Nat) (st : WalkStep)
    (hst : st ∈ nameWalk env target mtnc doName doDesc fuel start false) :
    st.directCheckRan = false := by
  rw [nameWalk_ran_eq env target mtnc doName doDesc fuel start false st hst,
    nameWalk_enabled_false env target mtnc doName doDesc fuel start st hst]
  simp

theorem nameWalk_countP_ran_le_one (env : TreeEnv) (target : Nat)
    (mtnc doName doDesc : Bool) :
    ∀ (fuel start : Nat) (flag : Bool),
      (nameWalk env target mtnc doName doDesc fuel start flag).countP
        (fun st => st.directCheckRan) ≤ 1 := by
  intro fuel
  induction fuel with
  | zero => intro start flag; simp [nameWalk]
  | succ f ih =>
      intro start flag
      by_cases hr : (walkStepAt env target mtnc doName doDesc start
          flag).directCheckRan = true
      · rw [nameWalk_succ_shape, List.countP_cons]
        simp only [hr, eq_self_iff_true, if_true]
        have htail : ∀ l : List WalkStep,
            l.countP (fun st => st.directCheckRan) = 0 →
            l.countP (fun st => st.directCheckRan) + 1 ≤ 1 :=
          fun l h => by omega
        apply htail
        split
        · rfl
        · split
          · rfl
          · split
            · exact List.countP_eq_zero.mpr (fun st hst => by
                simp [nameWalk_ran_false_of_disabled env target mtnc doName
                  doDesc f _ st hst])
            · rfl
      · rw [nameWalk_succ_shape, List.countP_cons]
        simp only [hr, if_false]
        have htail : ∀ l : List WalkStep,
            l.countP (fun st => st.directCheckRan) ≤ 1 →
            l.countP (fun st => st.directCheckRan) + 0 ≤ 1 :=
          fun l h => by omega
        apply htail
        split
        · simp
        · split
          · simp
          · split
            · exact ih _ flag
            · simp

theorem nameWalk_labelRel (env : TreeEnv) (target : Nat)
    (mtnc doDesc : Bool) :
    ∀ (fuel start : Nat) (flag : Bool),
      ∀ st ∈ nameWalk env target mtnc true doDesc fuel start flag,
        st.labelRelTargets = env.labelForTargets st.node := by
  intro fuel
  induction fuel with
  | zero => intro start flag st hst; simp [nameWalk] at hst
  | succ f ih =>
      intro start flag st hst
      rw [nameWalk_succ_shape] at hst
      rcases List.mem_cons.mp hst with h | h
      · subst h; rfl
      · split at h
        · cases h
        · split at h
          · cases h
          · split at h
            · exact ih _ _ st h
            · cases h

theorem nameWalk_descRel (env : TreeEnv) (target : Nat)
    (mtnc doName : Bool) :
    ∀ (fuel start : Nat) (flag : Bool),
      ∀ st ∈ nameWalk env target mtnc doName true fuel start flag,
        st.descRelTargets = env.descriptionForTargets st.node := by
  intro fuel
  induction fuel with
  | zero => intro start flag st hst; simp [nameWalk] at hst
  | succ f ih =>
      intro start flag st hst
      rw [nameWalk_succ_shape] at hst
      rcases List.mem_cons.mp hst with h | h
      · subst h; rfl
      · split at h
        · cases h
        · split at h
          · cases h
          · split at h
            · exact ih _ _ st h
            · cases h

/-- C9-amended: along the dependency propagator's upward walk the direct
ancestor name-change check runs exactly at ancestors where name
propagation is on, the check flag is still set, and the ancestor
qualifies — so an ancestor that fails to qualify leaves the flag set for
later ancestors; once the check has run at a qualifying ancestor,
whether or not it fired, it runs at no later ancestor (at most one step
of any walk runs it, and a walk with the flag cleared runs it nowhere);
relation-based propagation is recorded at every visited ancestor. -/
theorem c9_direct_check_once_relations_always (env : TreeEnv)
    (target : Nat) (mtnc doName doDesc : Bool) (origType : EventType)
    (fuel start : Nat) (flag : Bool) :
    ((nameWalk env target mtnc doName doDesc fuel start flag).countP
        (fun st => st.directCheckRan) ≤ 1) ∧
    ((pushNameOrDescriptionChangeTrace env target origType fuel).countP
        (fun st => st.directCheckRan) ≤ 1) ∧
    (∀ st ∈ nameWalk env target mtnc doName doDesc fuel start flag,
      st.directCheckRan = (doName && st.checkEnabled && st.qualifies)) ∧
    (∀ st ∈ nameWalk env target mtnc doName doDesc fuel start false,
      st.directCheckRan = false) ∧
    (doName = true → ∀ st ∈ nameWalk env target mtnc doName doDesc fuel
        start flag, st.labelRelTargets = env.labelForTargets st.node) ∧
    (doDesc = true → ∀ st ∈ nameWalk env target mtnc doName doDesc fuel
        start flag, st.descRelTargets = env.descriptionForTargets st.node) := by
  refine ⟨nameWalk_countP_ran_le_one env target mtnc doName doDesc fuel start
    flag, ?_, nameWalk_ran_eq env target mtnc doName doDesc fuel start flag,
    fun st hst => nameWalk_ran_false_of_disabled env target mtnc doName doDesc
      fuel start st hst, ?_, ?_⟩
  · unfold pushNameOrDescriptionChangeTrace
    dsimp only
    split
    · simp
    · exact nameWalk_countP_ran_le_one env target _ _ _ fuel target true
  · intro h
    subst h
    exact nameWalk_labelRel env target mtnc doDesc fuel start flag
  · intro h
    subst h
    exact nameWalk_descRel env target mtnc doName fuel start flag

/-- The three-node tree refuting C9 as stated: node 0 (the event target,
with a name dependent) has parent 1, which has parent 2; node 1 does not
qualify for the direct check (its name is not subtree-computed) but
carries the conditional subtree rule so the walk continues; node 2
qualifies. Each node labels the node numbered 100 higher. -/
def c9Env : TreeEnv :=
  ⟨fun n => if n = 0 then some 1 else if n = 1 then some 2 else none,
   fun n => decide (n = 2),
   fun n => decide (n = 1 ∨ n = 2),
   fun _ => false,
   fun _ => false,
   fun _ => ENameValueFlag.eNameFromSubtree,
   fun _ => false,
   fun n => decide (n = 0),
   fun _ => false,
   fun n => [n + 100],
   fun _ => []⟩

/-- Counterexample to C9 as stated: in the walk for a name-change on
node 0, the direct check does not fire at visited ancestor 1 because
node 1 does not qualify (checkEnabled is still true, qualifies is
false) — yet the direct check IS performed, and fires, at the
subsequently visited ancestor 2. A non-qualifying ancestor does not
stop the direct check for later ancestors. -/
theorem c9_counterexample_check_runs_after_nonqualifying_ancestor :
    pushNameOrDescriptionChangeTrace c9Env 0 EventType.nameChange 10 =
      [⟨0, true, false, false, false, [100], []⟩,
       ⟨1, true, false, false, false, [101], []⟩,
       ⟨2, true, true, true, true, [102], []⟩] := by decide

/-- Concrete instantiation of the amended walk theorem on the
three-node tree: at most one visited ancestor runs the direct check,
and the relation pass records node 2's label target. -/
theorem c9_direct_check_once_relations_always_witness :
    ((nameWalk c9Env 0 false true false 10 0 true).countP
        (fun st => st.directCheckRan) ≤ 1) ∧
    (⟨2, true, true, true, true, [102], []⟩ : WalkStep).labelRelTargets =
      c9Env.labelForTargets 2 := by
  have h := c9_direct_check_once_relations_always c9Env 0 false true false
    EventType.nameChange 10 0 true
  refine ⟨h.1, ?_⟩
  have h2 := h.2.2.2.2.1 rfl ⟨2, true, true, true, true, [102], []⟩ (by decide)
  simpa using h2

/-! ### The all-adds selection burst -/

theorem set_append_last (l : List AccEvent) (e x : AccEvent) :
    (l ++ [e]).set l.length x = l ++ [x] := by
  rw [List.set_append, if_neg (by simp)]
  simp

theorem set_append_left (l : List AccEvent) (e x : AccEvent) (i : Nat)
    (h : i < l.length) : (l ++ [e]).set i x = l.set i x ++ [e] := by
  rw [List.set_append, if_pos h]

/-- What the pack suppression scan does to each position: positions
below the scanned prefix matching the rule and widget are retagged
do-not-emit; every other position is untouched. -/
theorem packScan_getEv (r : EventRule) (w : Nat) :
    ∀ (n : Nat) (l : List AccEvent) (j : Nat), n ≤ l.length →
      getEv (packScan r w n l) j =
        if j < n ∧ (getEv l j).mEventRule = r ∧ (getEv l j).mWidget = w then
          { getEv l j with mEventRule := EventRule.eDoNotEmit }
        else getEv l j := by
  intro n
  induction n with
  | zero =>
      intro l j _
      rw [if_neg (by rintro ⟨h, -⟩; exact Nat.not_lt_zero j h)]
      rfl
  | succ m ih =>
      intro l j hn
      simp only [packScan]
      by_cases hcond : (getEv l m).mEventRule = r ∧ (getEv l m).mWidget = w
      · rw [if_pos hcond]
        have hset : ∀ j', getEv
            (l.set m { getEv l m with mEventRule := EventRule.eDoNotEmit })
            j' = if j' = m then { getEv l m with
              mEventRule := EventRule.eDoNotEmit } else getEv l j' := by
          intro j'
          by_cases hj' : j' = m
          · subst hj'
            rw [if_pos rfl]
            exact getEv_set_self l j' _ (by omega)
          · rw [if_neg hj']
            exact getEv_set_ne l m j' _ (fun h => hj' h.symm)
        rw [ih _ j (by rw [List.length_set]; omega)]
        by_cases hj : j = m
        · subst hj
          rw [if_neg (by rintro ⟨h, -⟩; omega), hset j, if_pos rfl,
            if_pos ⟨by omega, hcond⟩]
        · rw [hset j, if_neg hj]
          by_cases hjm : j < m
          · by_cases hmatch : (getEv l j).mEventRule = r ∧
                (getEv l j).mWidget = w
            · rw [if_pos ⟨hjm, hmatch⟩, if_pos ⟨by omega, hmatch⟩]
            · rw [if_neg (by rintro ⟨-, h⟩; exact hmatch h),
                if_neg (by rintro ⟨-, h⟩; exact hmatch h)]
          · rw [if_neg (by rintro ⟨h, -⟩; exact hjm h),
              if_neg (by rintro ⟨h, -⟩; omega)]
      · rw [if_neg hcond]
        rw [ih l j (by omega)]
        by_cases hj : j = m
        · subst hj
          rw [if_neg (by rintro ⟨h, -⟩; omega),
            if_neg (by rintro ⟨-, h⟩; exact hcond h)]
        · by_cases hjm : j < m
          · by_cases hmatch : (getEv l j).mEventRule = r ∧
                (getEv l j).mWidget = w
            · rw [if_pos ⟨hjm, hmatch⟩, if_pos ⟨by omega, hmatch⟩]
            · rw [if_neg (by rintro ⟨-, h⟩; exact hmatch h),
                if_neg (by rintro ⟨-, h⟩; exact hmatch h)]
          · rw [if_neg (by rintro ⟨h, -⟩; exact hjm h),
              if_neg (by rintro ⟨h, -⟩; omega)]

theorem modifyEv_append_last (l : List AccEvent) (e : AccEvent)
    (f : AccEvent → AccEvent) :
    modifyEv (l ++ [e]) l.length f = l ++ [f e] := by
  unfold modifyEv
  rw [getEv_append_length, set_append_last]

theorem modifyEv_append_left (l : List AccEvent) (e : AccEvent)
    (f : AccEvent → AccEvent) (i : Nat) (h : i < l.length) :
    modifyEv (l ++ [e]) i f = modifyEv l i f ++ [e] := by
  unfold modifyEv
  rw [getEv_append_left _ _ _ h, set_append_left _ _ _ _ h]

theorem selScan_top_match (t n : Nat) (l : List AccEvent)
    (hmatch : (getEv l n).mEventRule = (getEv l t).mEventRule ∧
      (getEv l t).mWidget = (getEv l n).mWidget) :
    coalesceSelScan t (n + 1) l = CoalesceSelChangeEvents l t n := by
  simp only [coalesceSelScan]
  rw [if_pos hmatch]

/-- Selection merge on an all-adds burst below the pack threshold: the
only effect is the tail's preceding count. -/
theorem selChange_eval_below (l : List AccEvent) (e : AccEvent) (m : Nat)
    (hlen : l.length = m + 1)
    (hcnt : (getEv l m).mPreceedingCount = m)
    (hthresh : m + 1 < kSelChangeCountToPack)
    (hthisSel : (getEv l m).mSelChangeType = SelChangeType.eSelectionAdd)
    (hthisTy : (getEv l m).mEventType = EventType.selectionAdd)
    (heSel : e.mSelChangeType = SelChangeType.eSelectionAdd)
    (heTy : e.mEventType = EventType.selectionAdd) :
    CoalesceSelChangeEvents (l ++ [e]) (m + 1) m =
      l ++ [{ e with mPreceedingCount := m + 1 }] := by
  have hLp : getEv (l ++ [e]) m = getEv l m :=
    getEv_append_left l e m (by omega)
  have hm1 : modifyEv (l ++ [e]) (m + 1) (fun e' => { e' with mPreceedingCount := (getEv (l ++ [e]) m).mPreceedingCount + 1 }) = l ++ [{ e with mPreceedingCount := m + 1 }] := by
    have h := modifyEv_append_last l e (fun e' => { e' with mPreceedingCount := (getEv (l ++ [e]) m).mPreceedingCount + 1 })
    rw [hlen] at h
    rw [h]
    simp [hLp, hcnt]
  have hxt : getEv (l ++ [{ e with mPreceedingCount := m + 1 }]) (m + 1) = { e with mPreceedingCount := m + 1 } := by
    rw [show m + 1 = l.length from hlen.symm]
    exact getEv_append_length _ _
  simp only [CoalesceSelChangeEvents]
  rw [hm1, hxt, hLp]
  rw [if_neg (show ¬(kSelChangeCountToPack ≤ ({ e with mPreceedingCount := m + 1 } : AccEvent).mPreceedingCount) from by simp only []; omega)]
  rw [if_neg (by simp [hthisSel])]
  rw [if_neg (by simp [heSel])]
  rw [if_neg (by simp [hthisTy])]
  rw [if_neg (by simp [heTy])]

/-- Selection merge at the pack threshold with a matched entry that is
not yet a selection-within: pack the tail into a selection-within on
the widget, suppress the matched entry, and run the backward
suppression scan below it. -/
theorem selChange_eval_pack (l : List AccEvent) (e : AccEvent) (m : Nat)
    (hlen : l.length = m + 1)
    (hcnt : (getEv l m).mPreceedingCount = m)
    (hthresh : kSelChangeCountToPack ≤ m + 1)
    (hthisTy : (getEv l m).mEventType ≠ EventType.selectionWithin) :
    CoalesceSelChangeEvents (l ++ [e]) (m + 1) m =
      packScan e.mEventRule e.mWidget m
        (modifyEv l m (fun e' => { e' with mEventRule := EventRule.eDoNotEmit }) ++
          [{ e with mEventType := EventType.selectionWithin, mAccessible := e.mWidget, mPreceedingCount := m + 1 }]) := by
  have hLp : getEv (l ++ [e]) m = getEv l m :=
    getEv_append_left l e m (by omega)
  have hm1 : modifyEv (l ++ [e]) (m + 1) (fun e' => { e' with mPreceedingCount := (getEv (l ++ [e]) m).mPreceedingCount + 1 }) = l ++ [{ e with mPreceedingCount := m + 1 }] := by
    have h := modifyEv_append_last l e (fun e' => { e' with mPreceedingCount := (getEv (l ++ [e]) m).mPreceedingCount + 1 })
    rw [hlen] at h
    rw [h]
    simp [hLp, hcnt]
  have hxt : getEv (l ++ [{ e with mPreceedingCount := m + 1 }]) (m + 1) = { e with mPreceedingCount := m + 1 } := by
    rw [show m + 1 = l.length from hlen.symm]
    exact getEv_append_length _ _
  have hm2 : modifyEv (l ++ [{ e with mPreceedingCount := m + 1 }]) (m + 1) (fun e' => { e' with mEventType := EventType.selectionWithin, mAccessible := e'.mWidget }) = l ++ [{ e with mEventType := EventType.selectionWithin, mAccessible := e.mWidget, mPreceedingCount := m + 1 }] := by
    have h := modifyEv_append_last l { e with mPreceedingCount := m + 1 } (fun e' => { e' with mEventType := EventType.selectionWithin, mAccessible := e'.mWidget })
    rw [hlen] at h
    rw [h]
  have hm3 : modifyEv (l ++ [{ e with mEventType := EventType.selectionWithin, mAccessible := e.mWidget, mPreceedingCount := m + 1 }]) m (fun e' => { e' with mEventRule := EventRule.eDoNotEmit }) = modifyEv l m (fun e' => { e' with mEventRule := EventRule.eDoNotEmit }) ++ [{ e with mEventType := EventType.selectionWithin, mAccessible := e.mWidget, mPreceedingCount := m + 1 }] :=
    modifyEv_append_left l _ _ m (by omega)
  have hxt3 : getEv (modifyEv l m (fun e' => { e' with mEventRule := EventRule.eDoNotEmit }) ++ [{ e with mEventType := EventType.selectionWithin, mAccessible := e.mWidget, mPreceedingCount := m + 1 }]) (m + 1) = { e with mEventType := EventType.selectionWithin, mAccessible := e.mWidget, mPreceedingCount := m + 1 } := by
    rw [show m + 1 = (modifyEv l m (fun e' => { e' with mEventRule := EventRule.eDoNotEmit })).length from by rw [length_modifyEv, hlen]]
    exact getEv_append_length _ _
  simp only [CoalesceSelChangeEvents]
  rw [hm1, hxt, hLp]
  rw [if_pos (show kSelChangeCountToPack ≤ ({ e with mPreceedingCount := m + 1 } : AccEvent).mPreceedingCount from by simp only []; omega)]
  rw [hm2, hm3, if_pos hthisTy, hxt3]

/-- Selection merge at the pack threshold with a matched entry that is
already a selection-within: pack the tail and suppress the matched
entry; the backward suppression scan is skipped. -/
theorem selChange_eval_pack_within (l : List AccEvent) (e : AccEvent)
    (m : Nat) (hlen : l.length = m + 1)
    (hcnt : (getEv l m).mPreceedingCount = m)
    (hthresh : kSelChangeCountToPack ≤ m + 1)
    (hthisTy : (getEv l m).mEventType = EventType.selectionWithin) :
    CoalesceSelChangeEvents (l ++ [e]) (m + 1) m =
      modifyEv l m (fun e' => { e' with mEventRule := EventRule.eDoNotEmit }) ++
        [{ e with mEventType := EventType.selectionWithin, mAccessible := e.mWidget, mPreceedingCount := m + 1 }] := by
  have hLp : getEv (l ++ [e]) m = getEv l m :=
    getEv_append_left l e m (by omega)
  have hm1 : modifyEv (l ++ [e]) (m + 1) (fun e' => { e' with mPreceedingCount := (getEv (l ++ [e]) m).mPreceedingCount + 1 }) = l ++ [{ e with mPreceedingCount := m + 1 }] := by
    have h := modifyEv_append_last l e (fun e' => { e' with mPreceedingCount := (getEv (l ++ [e]) m).mPreceedingCount + 1 })
    rw [hlen] at h
    rw [h]
    simp [hLp, hcnt]
  have hxt : getEv (l ++ [{ e with mPreceedingCount := m + 1 }]) (m + 1) = { e with mPreceedingCount := m + 1 } := by
    rw [show m + 1 = l.length from hlen.symm]
    exact getEv_append_length _ _
  have hm2 : modifyEv (l ++ [{ e with mPreceedingCount := m + 1 }]) (m + 1) (fun e' => { e' with mEventType := EventType.selectionWithin, mAccessible := e'.mWidget }) = l ++ [{ e with mEventType := EventType.selectionWithin, mAccessible := e.mWidget, mPreceedingCount := m + 1 }] := by
    have h := modifyEv_append_last l { e with mPreceedingCount := m + 1 } (fun e' => { e' with mEventType := EventType.selectionWithin, mAccessible := e'.mWidget })
    rw [hlen] at h
    rw [h]
  have hm3 : modifyEv (l ++ [{ e with mEventType := EventType.selectionWithin, mAccessible := e.mWidget, mPreceedingCount := m + 1 }]) m (fun e' => { e' with mEventRule := EventRule.eDoNotEmit }) = modifyEv l m (fun e' => { e' with mEventRule := EventRule.eDoNotEmit }) ++ [{ e with mEventType := EventType.selectionWithin, mAccessible := e.mWidget, mPreceedingCount := m + 1 }] :=
    modifyEv_append_left l _ _ m (by omega)
  simp only [CoalesceSelChangeEvents]
  rw [hm1, hxt, hLp]
  rw [if_pos (show kSelChangeCountToPack ≤ ({ e with mPreceedingCount := m + 1 } : AccEvent).mPreceedingCount from by simp only []; omega)]
  rw [hm2, hm3, if_neg (show ¬(getEv l m).mEventType ≠ EventType.selectionWithin from fun h => h hthisTy)]

/-- A freshly constructed selection-add event for widget `w`, as the
producer queues it: add kind and discriminator, coalesce-selection-change
rule, zero preceding count, no packed partner. -/
def FreshAdd (w : Nat) (e : AccEvent) : Prop :=
  e.mEventType = EventType.selectionAdd ∧
  e.mEventRule = EventRule.eCoalesceSelectionChange ∧
  e.mWidget = w ∧
  e.mSelChangeType = SelChangeType.eSelectionAdd ∧
  e.mPreceedingCount = 0 ∧
  e.mPackedEvent = none

/-- The queue sequence after `k` fresh selection-add pushes for widget
`w`: below the pack threshold all entries are live adds with
preceding counts 0..k-1; past it every entry but the last is
suppressed and the last is a selection-within on the widget. -/
def BurstState (w : Nat) (k : Nat) (l : List AccEvent) : Prop :=
  l.length = k ∧
  (k ≤ kSelChangeCountToPack →
    ∀ i, i < k →
      (getEv l i).mEventType = EventType.selectionAdd ∧
      (getEv l i).mEventRule = EventRule.eCoalesceSelectionChange ∧
      (getEv l i).mWidget = w ∧
      (getEv l i).mSelChangeType = SelChangeType.eSelectionAdd ∧
      (getEv l i).mPreceedingCount = i) ∧
  (kSelChangeCountToPack < k →
    (∀ i, i + 1 < k → (getEv l i).mEventRule = EventRule.eDoNotEmit) ∧
    (getEv l (k - 1)).mEventType = EventType.selectionWithin ∧
    (getEv l (k - 1)).mEventRule = EventRule.eCoalesceSelectionChange ∧
    (getEv l (k - 1)).mAccessible = w ∧
    (getEv l (k - 1)).mWidget = w ∧
    (getEv l (k - 1)).mPreceedingCount = k - 1)

theorem burst_step (w : Nat) (m : Nat) (l : List AccEvent) (e : AccEvent)
    (hB : BurstState w (m + 1) l) (he : FreshAdd w e) :
    BurstState w (m + 2) (CoalesceEvents (l ++ [e])) := by
  unfold BurstState at hB
  obtain ⟨hlen, hsmall, hbig⟩ := hB
  obtain ⟨heT, heR, heW, heS, heC, heP⟩ := he
  have hmlt : m < l.length := by omega
  have hLt : getEv (l ++ [e]) (m + 1) = e := by
    rw [show m + 1 = l.length from hlen.symm]
    exact getEv_append_length l e
  have hLp : getEv (l ++ [e]) m = getEv l m := getEv_append_left l e m hmlt
  have hprevRule : (getEv l m).mEventRule =
      EventRule.eCoalesceSelectionChange := by
    by_cases hc : m + 1 ≤ kSelChangeCountToPack
    · exact (hsmall hc m (by omega)).2.1
    · have hbg := hbig (by omega)
      simpa using hbg.2.2.1
  have hprevW : (getEv l m).mWidget = w := by
    by_cases hc : m + 1 ≤ kSelChangeCountToPack
    · exact (hsmall hc m (by omega)).2.2.1
    · have hbg := hbig (by omega)
      simpa using hbg.2.2.2.2.1
  have hprevCnt : (getEv l m).mPreceedingCount = m := by
    by_cases hc : m + 1 ≤ kSelChangeCountToPack
    · exact (hsmall hc m (by omega)).2.2.2.2
    · have hbg := hbig (by omega)
      simpa using hbg.2.2.2.2.2
  have hdisp : CoalesceEvents (l ++ [e]) =
      coalesceSelScan l.length l.length (l ++ [e]) :=
    coalesceEvents_dispatch_sel _ l.length (by simp)
      (by rw [getEv_append_length]; exact heR)
  have hscan : coalesceSelScan l.length l.length (l ++ [e]) =
      CoalesceSelChangeEvents (l ++ [e]) (m + 1) m := by
    rw [hlen]
    exact selScan_top_match (m + 1) m (l ++ [e])
      ⟨by rw [hLp, hLt, hprevRule, heR], by rw [hLp, hLt, heW, hprevW]⟩
  rcases Nat.lt_or_ge (m + 1) kSelChangeCountToPack with hA | hBc
  · -- below the threshold: just the count update
    have hsm := hsmall (by omega)
    have heval := selChange_eval_below l e m hlen hprevCnt hA
      (hsm m (by omega)).2.2.2.1 (hsm m (by omega)).1 heS heT
    rw [hdisp, hscan, heval]
    unfold BurstState
    refine ⟨by simp [hlen], ?_, ?_⟩
    · intro _ i hi
      by_cases him : i < l.length
      · rw [getEv_append_left _ _ _ him]
        exact ⟨(hsm i (by omega)).1, (hsm i (by omega)).2.1,
          (hsm i (by omega)).2.2.1, (hsm i (by omega)).2.2.2.1,
          (hsm i (by omega)).2.2.2.2⟩
      · have hieq : i = m + 1 := by omega
        subst hieq
        rw [show m + 1 = l.length from hlen.symm, getEv_append_length]
        exact ⟨heT, heR, heW, heS, by rw [hlen]⟩
    · intro hk
      exact absurd hk (by simp [kSelChangeCountToPack] at hA ⊢; omega)
  · rcases Nat.eq_or_lt_of_le hBc with hB5 | hBgt
    · -- exactly at the threshold: pack with the suppression scan
      have hm4 : m + 1 = kSelChangeCountToPack := hB5.symm
      have hsm := hsmall (by omega)
      have hty : (getEv l m).mEventType ≠ EventType.selectionWithin := by
        rw [(hsm m (by omega)).1]
        simp
      have heval := selChange_eval_pack l e m hlen hprevCnt (by omega) hty
      rw [hdisp, hscan, heval]
      unfold BurstState
      have hL3len : (modifyEv l m (fun e' =>
          { e' with mEventRule := EventRule.eDoNotEmit }) ++
          [{ e with mEventType := EventType.selectionWithin, mAccessible := e.mWidget, mPreceedingCount := m + 1 }]).length = m + 2 := by
        simp [length_modifyEv, hlen]
      have hscanlen : m ≤ (modifyEv l m (fun e' =>
          { e' with mEventRule := EventRule.eDoNotEmit }) ++
          [{ e with mEventType := EventType.selectionWithin, mAccessible := e.mWidget, mPreceedingCount := m + 1 }]).length := by
        rw [hL3len]; omega
      refine ⟨?_, ?_, ?_⟩
      · rw [length_packScan, hL3len]
      · intro hk
        exact absurd hk (by omega)
      · intro _
        have hlast : getEv (packScan e.mEventRule e.mWidget m
            (modifyEv l m (fun e' =>
              { e' with mEventRule := EventRule.eDoNotEmit }) ++
              [{ e with mEventType := EventType.selectionWithin, mAccessible := e.mWidget, mPreceedingCount := m + 1 }]))
            (m + 1) = { e with mEventType := EventType.selectionWithin, mAccessible := e.mWidget, mPreceedingCount := m + 1 } := by
          rw [packScan_getEv e.mEventRule e.mWidget m _ (m + 1) hscanlen,
            if_neg (by rintro ⟨h, -⟩; omega)]
          rw [show m + 1 = (modifyEv l m (fun e' =>
            { e' with mEventRule := EventRule.eDoNotEmit })).length from by
              rw [length_modifyEv, hlen]]
          exact getEv_append_length _ _
        refine ⟨?_, ?_, ?_, ?_, ?_, ?_⟩
        · intro i hi
          rw [packScan_getEv e.mEventRule e.mWidget m _ i hscanlen]
          by_cases him : i < m
          · have hin : getEv (modifyEv l m (fun e' =>
                { e' with mEventRule := EventRule.eDoNotEmit }) ++
                [{ e with mEventType := EventType.selectionWithin, mAccessible := e.mWidget, mPreceedingCount := m + 1 }]) i = getEv l i := by
              rw [getEv_append_left _ _ _ (by rw [length_modifyEv]; omega),
                getEv_modifyEv_ne _ _ _ _ (by omega)]
            rw [if_pos ⟨him, by
              rw [hin, (hsm i (by omega)).2.1, heR]
              exact ⟨rfl, by rw [hin] at *; rw [(hsm i (by omega)).2.2.1, heW]⟩⟩]
          · have hieq : i = m := by omega
            subst hieq
            rw [if_neg (by rintro ⟨h, -⟩; omega)]
            rw [getEv_append_left _ _ _ (by rw [length_modifyEv]; omega),
              getEv_modifyEv_self _ _ _ (by omega)]
        · simpa using congrArg AccEvent.mEventType hlast
        · rw [show m + 2 - 1 = m + 1 from rfl, hlast, heR]
        · rw [show m + 2 - 1 = m + 1 from rfl, hlast]
          exact heW
        · rw [show m + 2 - 1 = m + 1 from rfl, hlast]
          exact heW
        · rw [show m + 2 - 1 = m + 1 from rfl, hlast]
    · -- past the threshold: the matched entry is already a within
      have hbg := hbig (by omega)
      simp only [Nat.add_sub_cancel] at hbg
      have heval := selChange_eval_pack_within l e m hlen hprevCnt
        (by omega) hbg.2.1
      rw [hdisp, hscan, heval]
      unfold BurstState
      refine ⟨by simp [length_modifyEv, hlen], ?_, ?_⟩
      · intro hk
        exact absurd hk (by simp [kSelChangeCountToPack] at hBgt ⊢; omega)
      · intro _
        have hlast : getEv (modifyEv l m (fun e' =>
            { e' with mEventRule := EventRule.eDoNotEmit }) ++
            [{ e with mEventType := EventType.selectionWithin, mAccessible := e.mWidget, mPreceedingCount := m + 1 }])
            (m + 1) = { e with mEventType := EventType.selectionWithin, mAccessible := e.mWidget, mPreceedingCount := m + 1 } := by
          rw [show m + 1 = (modifyEv l m (fun e' =>
            { e' with mEventRule := EventRule.eDoNotEmit })).length from by
              rw [length_modifyEv, hlen]]
          exact getEv_append_length _ _
        refine ⟨?_, ?_, ?_, ?_, ?_, ?_⟩
        · intro i hi
          by_cases him : i < m
          · rw [getEv_append_left _ _ _ (by rw [length_modifyEv]; omega),
              getEv_modifyEv_ne _ _ _ _ (by omega)]
            exact hbg.1 i (by omega)
          · have hieq : i = m := by omega
            subst hieq
            rw [getEv_append_left _ _ _ (by rw [length_modifyEv]; omega),
              getEv_modifyEv_self _ _ _ (by omega)]
        · simpa using congrArg AccEvent.mEventType hlast
        · rw [show m + 2 - 1 = m + 1 from rfl, hlast, heR]
        · rw [show m + 2 - 1 = m + 1 from rfl, hlast]
          exact heW
        · rw [show m + 2 - 1 = m + 1 from rfl, hlast]
          exact heW
        · rw [show m + 2 - 1 = m + 1 from rfl, hlast]

theorem getEv_cons_succ (e : AccEvent) (l : List AccEvent) (i : Nat) :
    getEv (e :: l) (i + 1) = getEv l i := rfl

theorem pushEvent_freshAdd (w : Nat) (q : EventQueue) (e : AccEvent)
    (he : FreshAdd w e) :
    (PushEvent q e).queue =
      ⟨CoalesceEvents (q.mEvents ++ [e]), q.mFocusEvent⟩ := by
  obtain ⟨heT, heR, -, -, -, -⟩ := he
  simp [PushEvent, heT, heR]

theorem burst_invariant (w : Nat) :
    ∀ (es : List AccEvent), (∀ e ∈ es, FreshAdd w e) → es ≠ [] →
      BurstState w es.length (pushAll es emptyQueue).mEvents ∧
      (pushAll es emptyQueue).mFocusEvent = none := by
  intro es
  induction es using List.reverseRecOn with
  | nil => intro _ h; exact absurd rfl h
  | append_singleton l e ih =>
      intro hall _
      have he := hall e (by simp)
      have hpush : pushAll (l ++ [e]) emptyQueue =
          (PushEvent (pushAll l emptyQueue) e).queue := by
        simp only [pushAll, List.foldl_append, List.foldl_cons, List.foldl_nil]
      by_cases hnil : l = []
      · subst hnil
        obtain ⟨heT, heR, heW, heS, heC, heP⟩ := he
        rw [hpush, pushEvent_freshAdd w _ e ⟨heT, heR, heW, heS, heC, heP⟩]
        dsimp only
        rw [show (pushAll ([] : List AccEvent) emptyQueue).mEvents ++ [e] =
          [e] from rfl, coalesceEvents_singleton]
        refine ⟨?_, rfl⟩
        unfold BurstState
        refine ⟨rfl, ?_, ?_⟩
        · intro _ i hi
          have hi0 : i = 0 := by simpa using hi
          subst hi0
          exact ⟨heT, heR, heW, heS, heC⟩
        · intro hk
          exact absurd hk (by simp [kSelChangeCountToPack])
      · obtain ⟨hB, hF⟩ := ih (fun x hx => hall x (by simp [hx])) hnil
        obtain ⟨m, hm⟩ : ∃ m, l.length = m + 1 := by
          cases l with
          | nil => exact absurd rfl hnil
          | cons a t => exact ⟨t.length, rfl⟩
        rw [hpush, pushEvent_freshAdd w _ e he]
        refine ⟨?_, hF⟩
        have hstep := burst_step w m (pushAll l emptyQueue).mEvents e
          (by rw [← hm]; exact hB) he
        have hlen2 : (l ++ [e]).length = m + 2 := by simp [hm]
        rw [hlen2]
        exact hstep

theorem drainLoop_burst (env : DrainEnv) (all : List AccEvent)
    (hdef : ∀ a, env.isDefunct a = false) (hipc : env.ipcActive = false)
    (hdoc : env.docValid = true) :
    ∀ (l : List AccEvent) (sel unsel : List Nat),
      (∀ i, i + 1 < l.length →
        (getEv l i).mEventRule = EventRule.eDoNotEmit) →
      l ≠ [] →
      (getEv l (l.length - 1)).mEventRule ≠ EventRule.eDoNotEmit →
      (getEv l (l.length - 1)).mEventType = EventType.selectionWithin →
      drainLoop env all l sel unsel =
        ⟨[Notification.eventFired (getEv l (l.length - 1))],
          sel, unsel, false⟩ := by
  intro l
  induction l with
  | nil => intro sel unsel _ h; exact absurd rfl h
  | cons e rest ih =>
      intro sel unsel hsup _ hlastR hlastT
      have hcoll : collectSelChange env e sel unsel = (sel, unsel) := by
        unfold collectSelChange
        rw [if_neg (by rw [hipc]; rintro ⟨h, -⟩; cases h)]
      by_cases hrest : rest = []
      · subst hrest
        have he0R : e.mEventRule ≠ EventRule.eDoNotEmit := hlastR
        have he0T : e.mEventType = EventType.selectionWithin := hlastT
        unfold drainLoop
        rw [hdef e.mAccessible, if_neg (by simp)]
        dsimp only
        rw [hcoll]
        rw [if_neg he0R, if_neg (by rw [he0T]; simp)]
        dsimp only
        rw [if_neg (by rw [hdoc]; simp)]
        have hsel : selStateNotifs all e = [] := by
          unfold selStateNotifs
          rw [if_neg (by rw [he0T]; simp), if_neg (by rw [he0T]; simp),
            if_neg (by rw [he0T]; simp)]
        have hmut : mutationFlushNotifs env e = [] := by
          unfold mutationFlushNotifs
          rw [if_neg (by rw [hipc]; rintro ⟨-, h⟩; cases h)]
        rw [hsel, hmut]
        rfl
      · obtain ⟨n, hn⟩ : ∃ n, rest.length = n + 1 := by
          cases rest with
          | nil => exact absurd rfl hrest
          | cons a t => exact ⟨t.length, rfl⟩
        have he0 : e.mEventRule = EventRule.eDoNotEmit := by
          have := hsup 0 (by simp only [List.length_cons, hn]; omega)
          simpa using this
        have hlen1 : (e :: rest).length - 1 = rest.length - 1 + 1 := by
          simp [hn]
        have hget : getEv (e :: rest) ((e :: rest).length - 1) =
            getEv rest (rest.length - 1) := by
          rw [hlen1, getEv_cons_succ]
        unfold drainLoop
        rw [hdef e.mAccessible, if_neg (by simp)]
        dsimp only
        rw [hcoll]
        rw [if_pos he0]
        rw [hget]
        exact ih sel unsel
          (fun i hi => by
            have := hsup (i + 1) (by simpa using Nat.succ_lt_succ hi)
            rwa [getEv_cons_succ] at this)
          hrest
          (by rwa [hget] at hlastR)
          (by rwa [hget] at hlastT)

/-- C1 (amended): for a burst of MORE THAN `kSelChangeCountToPack` (i.e.
at least six) consecutive fresh selection-add pushes for one widget `w`
from the empty queue — no other widget interleaved — the coalesced
sequence has every entry but the last retagged do-not-emit, and the
subsequent drain (live targets, valid document, transport inactive)
delivers exactly one notification: a single selection-within event
targeting the widget itself. The original claim's threshold of "at least
5 pushes" is refuted separately: five pushes leave five live entries. -/
theorem c1_selection_burst_collapses_to_single_within
    (w : Nat) (es : List AccEvent) (env : DrainEnv)
    (hall : ∀ e ∈ es, FreshAdd w e)
    (hlen : kSelChangeCountToPack < es.length)
    (hdef : ∀ a, env.isDefunct a = false)
    (hipc : env.ipcActive = false)
    (hdoc : env.docValid = true) :
    (∀ i, i + 1 < (pushAll es emptyQueue).mEvents.length →
      (getEv (pushAll es emptyQueue).mEvents i).mEventRule =
        EventRule.eDoNotEmit) ∧
    ∃ ev, (ProcessEventQueue env (pushAll es emptyQueue)).1 =
        [Notification.eventFired ev] ∧
      ev.mEventType = EventType.selectionWithin ∧
      ev.mAccessible = w ∧ ev.mWidget = w := by
  have hne : es ≠ [] := by
    intro h
    rw [h] at hlen
    simp [kSelChangeCountToPack] at hlen
  obtain ⟨hB, hF⟩ := burst_invariant w es hall hne
  unfold BurstState at hB
  obtain ⟨hlenl, -, hbigf⟩ := hB
  obtain ⟨hsup, hT, hR, hA, hW, hC⟩ := hbigf hlen
  have hlne : (pushAll es emptyQueue).mEvents ≠ [] := by
    intro h
    rw [h] at hlenl
    simp only [List.length_nil] at hlenl
    omega
  have hidx : (pushAll es emptyQueue).mEvents.length - 1 = es.length - 1 := by
    rw [hlenl]
  constructor
  · intro i hi
    exact hsup i (by rwa [hlenl] at hi)
  · have hdl := drainLoop_burst env (pushAll es emptyQueue).mEvents hdef hipc
      hdoc (pushAll es emptyQueue).mEvents [] []
      (fun i hi => hsup i (by rwa [hlenl] at hi)) hlne
      (by rw [hidx]; exact fun h => by rw [h] at hR; cases hR)
      (by rw [hidx]; exact hT)
    refine ⟨getEv (pushAll es emptyQueue).mEvents
      ((pushAll es emptyQueue).mEvents.length - 1), ?_, ?_, ?_, ?_⟩
    · unfold ProcessEventQueue
      dsimp only
      rw [hF]
      dsimp only
      rw [hdl]
      dsimp only
      rw [if_neg (by rw [hipc]; rintro ⟨-, -, h, -⟩; cases h)]
      simp
    · rw [hidx]; exact hT
    · rw [hidx]; exact hA
    · rw [hidx]; exact hW

/-- One fresh selection-add event for widget 9: item `k`, a distinct
target per push, coalesce-selection-change rule, zero preceding count. -/
def c1Ev (k : Nat) : AccEvent :=
  { dummyEvent with mEventType := EventType.selectionAdd, mEventRule := EventRule.eCoalesceSelectionChange, mAccessible := 20 + k, mWidget := 9, mItem := k, mSelChangeType := SelChangeType.eSelectionAdd, mPreceedingCount := 0, mPackedEvent := none }

/-- Drain environment for the burst runs: nothing defunct, no documents,
transport inactive, document valid. -/
def c1Env : DrainEnv := ⟨fun _ => false, fun _ => false, false, true⟩

/-- A burst of six fresh selection-add pushes for widget 9. -/
def c1Es : List AccEvent :=
  [c1Ev 0, c1Ev 1, c1Ev 2, c1Ev 3, c1Ev 4, c1Ev 5]

theorem c1_selection_burst_collapses_to_single_within_witness :
    (∀ i, i + 1 < (pushAll c1Es emptyQueue).mEvents.length →
      (getEv (pushAll c1Es emptyQueue).mEvents i).mEventRule =
        EventRule.eDoNotEmit) ∧
    ∃ ev, (ProcessEventQueue c1Env (pushAll c1Es emptyQueue)).1 =
        [Notification.eventFired ev] ∧
      ev.mEventType = EventType.selectionWithin ∧
      ev.mAccessible = 9 ∧ ev.mWidget = 9 :=
  c1_selection_burst_collapses_to_single_within 9 c1Es c1Env
    (by
      intro e he
      simp only [c1Es, List.mem_cons, List.not_mem_nil, or_false] at he
      rcases he with h | h | h | h | h | h <;> subst h <;>
        exact ⟨rfl, rfl, rfl, rfl, rfl, rfl⟩)
    (by simp [c1Es, kSelChangeCountToPack])
    (fun _ => rfl) rfl rfl

/-- A burst of exactly five fresh selection-add pushes for widget 9:
the original claim's minimal premise. -/
def c1Es5 : List AccEvent := [c1Ev 0, c1Ev 1, c1Ev 2, c1Ev 3, c1Ev 4]

/-- Is this notification the delivery of a selection-within event? -/
def isWithinFired (n : Notification) : Bool :=
  match n with
  | Notification.eventFired ev =>
      decide (ev.mEventType = EventType.selectionWithin)
  | _ => false

/-- C1 counterexample: exactly five consecutive selection-add pushes for
widget 9 — the original claim's "at least 5" premise at its minimum — do
NOT collapse: the packed-entry rewrite fires only when the preceding
count of the matched entry has already reached 5, i.e. on the sixth
push. The drain delivers ten notifications (a selected-state and a
generic delivery per entry), none of them a selection-within event,
refuting "exactly one notification: a single selection-within event". -/
theorem c1_counterexample_five_pushes_fire_individually :
    (ProcessEventQueue c1Env (pushAll c1Es5 emptyQueue)).1.length = 10 ∧
    (ProcessEventQueue c1Env (pushAll c1Es5 emptyQueue)).1.countP
      isWithinFired = 0 := by decide
